import Mathlib

/-!
Verification development for the `ersh` command interpreter (src/src/ersh.c).

The C source is shallowly embedded below.  Strings are modelled as `List Char`
(the bytes of a NUL-terminated C string, without the terminator).  The
filesystem visible to the shell is modelled as a flat finite map from absolute
paths (lists of name components) to file/directory metadata, together with the
process working directory; POSIX calls (`stat`, `unlink`, `rmdir`, `opendir` +
`readdir`, `chdir`, `mkdir`, `open(O_CREAT)`, `getcwd`) are modelled as pure
state transformers on that `World`.  ANSI colour escape sequences emitted by
the shell (macros from `include/colors.h`, a header not present in the
sources) are elided; diagnostic output is modelled as a list of tagged
messages, and `ls -l` data lines carry their rendered visible text.
Unbounded C recursion (`remove_directory_recursive`) is modelled with an
explicit fuel parameter standing for the call stack.
-/

/-- Shorthand: the character list of a string literal. -/
def strL (s : String) : List Char := s.data

/-! ## Tokenizer (`parse_args`, ersh.c lines 34-44)

`parse_args` repeatedly calls `strtok(line, " \t\n")`: skip a run of
delimiters, emit the following maximal run of non-delimiters, repeat.
At most `MAX_ARGS - 1 = 63` tokens are stored; `args[i] = NULL` afterwards. -/

/-- The delimiter set `" \t\n"` passed to `strtok`. -/
def isDelim (c : Char) : Bool := c = ' ' ∨ c = '\t' ∨ c = '\n'

/-- Dropping a prefix can only shorten a list. -/
theorem dropWhile_length_le (p : Char → Bool) :
    ∀ l : List Char, (l.dropWhile p).length ≤ l.length
  | [] => Nat.le_refl _
  | a :: l => by
    rw [List.dropWhile_cons]
    by_cases hp : p a
    · simp only [hp, if_true]
      exact Nat.le_succ_of_le (dropWhile_length_le p l)
    · simp [hp]

/-- All tokens `strtok(line, " \t\n")` would produce, in order:
skip delimiters, take a maximal non-delimiter run, repeat. -/
def strtokAll : List Char → List (List Char)
  | [] => []
  | c :: cs =>
    if isDelim c then strtokAll cs
    else (c :: cs.takeWhile (fun x => !isDelim x)) ::
      strtokAll (cs.dropWhile (fun x => !isDelim x))
termination_by l => l.length
decreasing_by
  all_goals simp only [List.length_cons]
  · omega
  · exact Nat.lt_succ_of_le (dropWhile_length_le _ _)

/-- Spec-side tokenizer, written from the spec's words: the non-empty
substrings obtained by splitting on space/tab/newline, in order. -/
def specTokens (line : List Char) : List (List Char) :=
  (line.splitOnP isDelim).filter (fun t => !t.isEmpty)

/-- `parse_args` (ersh.c 35): collects the `strtok` tokens, stopping after
`MAX_ARGS - 1 = 63` of them; the token count is the length of the result and
slot `count` of the argument array is the `NULL` sentinel. -/
def parse_args (line : List Char) : List (List Char) :=
  (strtokAll line).take 63

/-- The C argument array after `parse_args`: slot `i` viewed as
`NULL`-or-token (slots past the sentinel are not modelled). -/
def argvSlot (line : List Char) (i : Nat) : Option (List Char) :=
  (parse_args line)[i]?

/-- If `dropWhile p` returns a non-empty list, its head fails `p`. -/
theorem dropWhile_head_false (p : Char → Bool) (l : List Char) (d : Char)
    (rest : List Char) (h : l.dropWhile p = d :: rest) : p d = false := by
  induction l with
  | nil => simp at h
  | cons a l ih =>
    rw [List.dropWhile_cons] at h
    by_cases hp : p a
    · exact ih (by simpa [hp] using h)
    · rw [if_neg hp] at h
      cases h
      simpa using hp

/-- Helper: `splitOnP` exposes the leading non-delimiter run. -/
theorem splitOnP_eq_takeWhile_cons (p : Char → Bool) (l : List Char) :
    l.splitOnP p = l.takeWhile (fun a => !p a) ::
      (match l.dropWhile (fun a => !p a) with
        | [] => []
        | _ :: rest => rest.splitOnP p) := by
  induction l with
  | nil => simp
  | cons a l ih =>
    by_cases h : p a
    · simp [h]
    · simp only [List.splitOnP_cons, h, if_false, ih, List.takeWhile_cons,
        List.dropWhile_cons, Bool.not_eq_true']
      simp [h]

/-- The `strtok` loop is the spec-side tokenizer: it returns exactly the
non-empty fields of the delimiter-split, in order. -/
theorem strtokAll_eq_specTokens (l : List Char) : strtokAll l = specTokens l := by
  suffices H : ∀ n, ∀ l : List Char, l.length = n → strtokAll l = specTokens l by
    exact H l.length l rfl
  intro n
  induction n using Nat.strong_induction_on with
  | _ n ih =>
    intro l hn
    subst hn
    cases l with
    | nil => simp [strtokAll, specTokens]
    | cons c cs =>
      by_cases h : isDelim c = true
      · rw [strtokAll.eq_def]
        simp only [h, if_true]
        rw [ih cs.length (by simp only [List.length_cons]; omega) cs rfl]
        simp [specTokens, h]
      · have hb : isDelim c = false := by simpa using h
        rw [strtokAll.eq_def]
        simp only [hb, Bool.false_eq_true, if_false]
        unfold specTokens
        rw [splitOnP_eq_takeWhile_cons isDelim (c :: cs)]
        simp only [List.takeWhile_cons, hb, Bool.not_false, if_true,
          List.dropWhile_cons, Bool.false_eq_true, if_false, List.filter_cons,
          List.isEmpty_cons]
        congr 1
        cases hd : cs.dropWhile (fun x => !isDelim x) with
        | nil => simp [strtokAll]
        | cons d rest =>
          have hdd : isDelim d = true := by
            have := dropWhile_head_false (fun x => !isDelim x) cs d rest hd
            simpa using this
          rw [strtokAll.eq_def]
          simp only [hdd, if_true]
          have hlen : rest.length < (c :: cs).length := by
            have h1 : (cs.dropWhile (fun x => !isDelim x)).length ≤ cs.length :=
              dropWhile_length_le _ _
            rw [hd] at h1
            simp only [List.length_cons] at h1 ⊢
            omega
          rw [ih rest.length hlen rest rfl]
          rfl

/-! ## Filesystem model

The shell manipulates the filesystem only through POSIX calls on path
strings.  A `World` holds the process working directory (`cwd`, as an
absolute component list) and a flat finite map from absolute component paths
to metadata.  The root directory `[]` is implicit (always present).  Path
strings are resolved POSIX-style: split on `/`, empty components collapse,
`.` and `..` navigate; resolution is purely syntactic here (idealising the
host's behaviour on paths whose intermediate components do not exist). -/

/-- One name component of a path. -/
abbrev FName := List Char

/-- Metadata of one filesystem object: permission bits and byte size. -/
inductive Info where
  | file (perm : Nat) (size : Nat)
  | dir (perm : Nat) (size : Nat)
deriving DecidableEq, Repr

/-- The filesystem and process state visible to the shell. -/
structure World where
  files : List (List FName × Info)
  cwd : List FName
deriving DecidableEq, Repr

/-- Split a path string on `/`, dropping empty components. -/
def splitPath (p : List Char) : List FName :=
  (p.splitOnP (fun c => c = '/')).filter (fun t => !t.isEmpty)

/-- Resolve components against a base absolute path (`.` stays, `..` goes up,
`..` at the root stays at the root, as in POSIX). -/
def normComps : List FName → List FName → List FName
  | base, [] => base
  | base, c :: cs =>
    if c = ['.'] then normComps base cs
    else if c = ['.', '.'] then normComps base.dropLast cs
    else normComps (base ++ [c]) cs

/-- Turn a path string into an absolute component path.  The empty string is
not a valid path (POSIX: `ENOENT`). -/
def resolveW (w : World) (p : List Char) : Option (List FName) :=
  if p.isEmpty then none
  else if p.head? = some '/' then some (normComps [] (splitPath p))
  else some (normComps w.cwd (splitPath p))

/-- First entry stored at an absolute component path. -/
def findEntry (w : World) (comps : List FName) : Option Info :=
  match w.files.find? (fun e => e.1 == comps) with
  | some e => some e.2
  | none => none

/-- Is there a directory at this absolute component path?  The root `[]`
always is. -/
def isDirAt (w : World) (comps : List FName) : Bool :=
  comps.isEmpty ||
    match findEntry w comps with
    | some (.dir _ _) => true
    | _ => false

/-- Names of the direct children of a directory, in storage order (the
OS-defined `readdir` order of the model). -/
def childNames (w : World) (comps : List FName) : List FName :=
  w.files.filterMap (fun e =>
    match e.1.getLast? with
    | some n => if e.1.dropLast == comps then some n else none
    | none => none)

/-- Result of a successful `stat`: directory flag, `st_mode` (file-type bits
plus permissions), `st_size`. -/
structure StatRec where
  isDir : Bool
  mode : Nat
  size : Nat
deriving DecidableEq, Repr

/-- `st_mode`/`st_size` of an object (`S_IFDIR = 0o040000`,
`S_IFREG = 0o100000`). -/
def infoStat : Info → StatRec
  | .file p s => ⟨false, 0o100000 + p, s⟩
  | .dir p s => ⟨true, 0o040000 + p, s⟩

/-- `stat(2)` on a path string.  The implicit root is a `0o755` directory. -/
def statW (w : World) (p : List Char) : Option StatRec :=
  match resolveW w p with
  | none => none
  | some [] => some ⟨true, 0o040000 + 0o755, 4096⟩
  | some comps => (findEntry w comps).map infoStat

/-- Remove every entry stored at exactly this path. -/
def eraseEntry (w : World) (comps : List FName) : World :=
  { w with files := w.files.filter (fun e => !(e.1 == comps)) }

/-- Does the process have write permission on the directory containing this
path?  POSIX `unlink(2)` requires write permission on the parent directory
(`EACCES` otherwise); `S_IWUSR = 0o200`.  The implicit root is mode `0755`,
hence writable. -/
def parentWritable (w : World) (comps : List FName) : Bool :=
  match comps.dropLast with
  | [] => true
  | c :: cs =>
    match findEntry w (c :: cs) with
    | some (.dir perm _) => perm &&& 0o200 != 0
    | _ => false

/-- `unlink(2)`: succeeds only on an existing non-directory whose parent
directory is writable (otherwise `EACCES`). -/
def unlinkW (w : World) (p : List Char) : Option World :=
  match resolveW w p with
  | some (c :: cs) =>
    match findEntry w (c :: cs) with
    | some (.file _ _) =>
      if parentWritable w (c :: cs) then some (eraseEntry w (c :: cs))
      else none
    | _ => none
  | _ => none

/-- `rmdir(2)`: succeeds only on an existing empty directory (never on the
root). -/
def rmdirW (w : World) (p : List Char) : Option World :=
  match resolveW w p with
  | some (c :: cs) =>
    match findEntry w (c :: cs) with
    | some (.dir _ _) =>
      if (childNames w (c :: cs)).isEmpty then some (eraseEntry w (c :: cs))
      else none
    | _ => none
  | _ => none

/-- `opendir` + the full `readdir` loop: the entry names of a directory,
starting with the self and parent references. -/
def readdirW (w : World) (p : List Char) : Option (List FName) :=
  match resolveW w p with
  | none => none
  | some comps =>
    if isDirAt w comps then some (['.'] :: ['.', '.'] :: childNames w comps)
    else none

/-- `chdir(2)`: succeeds only on an existing directory. -/
def chdirW (w : World) (p : List Char) : Option World :=
  match resolveW w p with
  | none => none
  | some comps => if isDirAt w comps then some { w with cwd := comps } else none

/-- `mkdir(2)` with mode `0755`: the path must not exist and its parent must
be a directory. -/
def mkdirW (w : World) (p : List Char) : Option World :=
  match resolveW w p with
  | some (c :: cs) =>
    if (findEntry w (c :: cs)).isNone && isDirAt w ((c :: cs).dropLast) then
      some { w with files := w.files ++ [((c :: cs), .dir 0o755 4096)] }
    else none
  | _ => none

/-- `open(path, O_WRONLY | O_CREAT, 0666)` followed by `close`: succeeds on
an existing file (no-op), fails on a directory (`EISDIR`), creates an empty
file when the parent is a directory. -/
def touchW (w : World) (p : List Char) : Option World :=
  match resolveW w p with
  | some (c :: cs) =>
    match findEntry w (c :: cs) with
    | some (.file _ _) => some w
    | some (.dir _ _) => none
    | none =>
      if isDirAt w ((c :: cs).dropLast) then
        some { w with files := w.files ++ [((c :: cs), .file 0o666 0)] }
      else none
  | _ => none

/-- The absolute path string `getcwd` would name for a component list. -/
def renderCwd (comps : List FName) : List Char :=
  match comps with
  | [] => ['/']
  | _ => comps.foldl (fun acc c => acc ++ '/' :: c) []

/-- Well-formedness of a world: paths are stored at most once, never at the
root itself, component names are plain (non-empty, not `.` or `..`, without
`/`), and every proper ancestor of an entry is present as a directory. -/
def Wf (w : World) : Prop :=
  (w.files.map (fun e => e.1)).Nodup ∧
    ∀ e ∈ w.files,
      e.1 ≠ [] ∧
      (∀ n ∈ e.1, n ≠ [] ∧ n ≠ ['.'] ∧ n ≠ ['.', '.'] ∧ '/' ∉ n) ∧
      (∀ k < e.1.length, 0 < k → isDirAt w (e.1.take k) = true)

instance (w : World) : Decidable (Wf w) := by
  unfold Wf
  infer_instance

/-! ## Output rendering (`write_size_aligned` ersh.c 46-73,
`write_permissions` ersh.c 75-87)

The C size printer extracts decimal digits least-significant first into a
buffer (`'0'` is special-cased), writes `10 - count` padding spaces, then the
digits in reverse.  The `while (n > 0)` loop is modelled with explicit fuel;
`n` itself is enough fuel, since a positive number has at most `n` digits. -/

/-- Decimal digits of `n`, least significant first (the C digit loop). -/
def digitsRevAux : Nat → Nat → List Char
  | 0, _ => []
  | fuel + 1, n =>
    if n = 0 then []
    else Char.ofNat (48 + n % 10) :: digitsRevAux fuel (n / 10)

/-- Decimal digits of `n`, least significant first. -/
def digitsRev (n : Nat) : List Char := digitsRevAux n n

/-- `write_size_aligned` (ersh.c 47): the visible characters it writes —
padding spaces up to field width 10, then the decimal digits most
significant first (`0` prints as a single `'0'`). -/
def write_size_aligned (size : Nat) : List Char :=
  let ds := if size = 0 then ['0'] else digitsRev size
  List.replicate (10 - ds.length) ' ' ++ ds.reverse

/-- `write_permissions` (ersh.c 76): the ten permission characters.
`S_ISDIR` tests the file-type bits; `S_IRUSR … S_IXOTH` are the octal masks
`0o400 … 0o1`. -/
def write_permissions (mode : Nat) : List Char :=
  [if mode &&& 0o170000 = 0o040000 then 'd' else '-',
   if mode &&& 0o400 ≠ 0 then 'r' else '-',
   if mode &&& 0o200 ≠ 0 then 'w' else '-',
   if mode &&& 0o100 ≠ 0 then 'x' else '-',
   if mode &&& 0o40 ≠ 0 then 'r' else '-',
   if mode &&& 0o20 ≠ 0 then 'w' else '-',
   if mode &&& 0o10 ≠ 0 then 'x' else '-',
   if mode &&& 0o4 ≠ 0 then 'r' else '-',
   if mode &&& 0o2 ≠ 0 then 'w' else '-',
   if mode &&& 0o1 ≠ 0 then 'x' else '-']

/-- The visible text of one `ls -l` data line (ersh.c 258-265, colour
escapes elided, without the trailing newline): permissions, one space, the
size field, two spaces, the entry name. -/
def lsLongLine (mode size : Nat) (nm : FName) : List Char :=
  write_permissions mode ++ ' ' :: (write_size_aligned size ++ ' ' :: ' ' :: nm)

/-- The line layout asserted by the specification: permission string, size
field, two spaces, name (no separator between permissions and size). -/
def specStatedLine (mode size : Nat) (nm : FName) : List Char :=
  write_permissions mode ++ write_size_aligned size ++ ' ' :: ' ' :: nm

/-- The child-path join used by `ls -l` (ersh.c 240-254) and by
`remove_directory_recursive` (ersh.c 416-430): copy up to 1023 bytes of the
parent path, append `'/'` if there is room and the last copied byte is not
already `'/'`, then copy the entry name into the remaining room.  (For an
empty parent path the C code reads `fullpath[-1]`; that case is unreachable,
since `opendir("")` fails first.) -/
def buildFullPath (path nm : List Char) : List Char :=
  let a := path.take 1023
  let b := if a.length < 1023 ∧ a.getLast? ≠ some '/' then a ++ ['/'] else a
  b ++ nm.take (1023 - b.length)

/-- Tagged diagnostic and data output of the shell (colour escapes and
message framing elided; data payloads carried verbatim). -/
inductive Msg where
  | cdMissing
  | cdFail
  | pwdOut (s : List Char)
  | pwdFail
  | helpGeneral
  | helpCmd (c : List Char)
  | helpUnknown (c : List Char)
  | lsCannotOpen (p : List Char)
  | lsLine (line : List Char)
  | lsName (n : List Char)
  | mkdirMissing
  | mkdirFail (p : List Char)
  | rmMissingArg
  | rmMissingOperand
  | rmCannotStat (p : List Char)
  | rmIsDir (p : List Char)
  | rmCannotRemoveDir (p : List Char)
  | rmCannotRemoveFile (p : List Char)
  | touchMissing
  | touchFail (p : List Char)
  | poweroffMsg
  | notFound (c : List Char)
  | forkFailed
deriving DecidableEq, Repr

/-! ## Built-in handlers (ersh.c 94-471)

Each handler takes the current world and the full argument vector
(`args[0]` included) and yields exit status, resulting world, and output.
`args[i] == NULL` in C corresponds to `args[i]? = none` here. -/

/-- `builtin_cd` (ersh.c 94). -/
def builtin_cd (w : World) (args : List (List Char)) : Nat × World × List Msg :=
  match args[1]? with
  | none => (1, w, [.cdMissing])
  | some p =>
    match chdirW w p with
    | some w2 => (0, w2, [])
    | none => (1, w, [.cdFail])

/-- `builtin_pwd` (ersh.c 312): `getcwd` into a 1024-byte buffer fails when
the absolute path does not fit (1023 bytes plus the terminator). -/
def builtin_pwd (w : World) (_args : List (List Char)) : Nat × World × List Msg :=
  let s := renderCwd w.cwd
  if s.length < 1024 then (0, w, [.pwdOut s]) else (1, w, [.pwdFail])

/-- The nine command names `builtin_help` documents (ersh.c 116-175). -/
def helpTopics : List (List Char) :=
  [strL "cd", strL "exit", strL "help", strL "ls", strL "mkdir",
   strL "poweroff", strL "pwd", strL "rm", strL "touch"]

/-- `builtin_help` (ersh.c 111): general catalog, detailed usage, or an
unknown-command error. -/
def builtin_help (w : World) (args : List (List Char)) : Nat × World × List Msg :=
  match args[1]? with
  | none => (0, w, [.helpGeneral])
  | some c =>
    if c ∈ helpTopics then (0, w, [.helpCmd c]) else (1, w, [.helpUnknown c])

/-- The inner flag-character scan of `builtin_ls` (ersh.c 208-214): each
`'a'` sets show-all, each `'l'` sets long-format, all other characters are
ignored. -/
def lsScanTok : List Char → Bool × Bool → Bool × Bool
  | [], st => st
  | c :: cs, (sa, lf) =>
    if c = 'a' then lsScanTok cs (true, lf)
    else if c = 'l' then lsScanTok cs (sa, true)
    else lsScanTok cs (sa, lf)

/-- The leading-flag loop of `builtin_ls` (ersh.c 207-216): consume every
leading token beginning with `'-'`, scanning its remaining characters. -/
def lsFlagLoop : List (List Char) → Bool × Bool → Bool × Bool × List (List Char)
  | [], st => (st.1, st.2, [])
  | t :: rest, st =>
    if t.head? = some '-' then lsFlagLoop rest (lsScanTok t.tail st)
    else (st.1, st.2, t :: rest)

/-- One `readdir` iteration of `builtin_ls` (ersh.c 233-277) for an entry
that was not skipped: in long format, stat the joined child path and print
the long line, or just the name if `stat` fails; otherwise print the name. -/
def lsEntry (w : World) (long : Bool) (path : List Char) (nm : FName) : Msg :=
  if long then
    match statW w (buildFullPath path nm) with
    | some st => .lsLine (lsLongLine st.mode st.size nm)
    | none => .lsName nm
  else .lsName nm

/-- The `readdir` loop of `builtin_ls`: hidden entries (leading `'.'`) are
skipped unless show-all is set. -/
def lsEntries (w : World) (sa long : Bool) (path : List Char)
    (names : List FName) : List Msg :=
  (names.filter (fun nm => sa || !(nm.head? = some '.'))).map
    (lsEntry w long path)

/-- `builtin_ls` (ersh.c 200): parse leading flags, take the next token as
the path (default `"."`), open the directory, list it.  (The terminating
bare newline of the short format is elided with the colour escapes.) -/
def builtin_ls (w : World) (args : List (List Char)) : Nat × World × List Msg :=
  let st := lsFlagLoop (args.drop 1) (false, false)
  let path := match st.2.2.head? with
    | some p => p
    | none => strL "."
  match readdirW w path with
  | none => (1, w, [.lsCannotOpen path])
  | some names => (0, w, lsEntries w st.1 st.2.1 path names)

/-- `builtin_mkdir` (ersh.c 287). -/
def builtin_mkdir (w : World) (args : List (List Char)) : Nat × World × List Msg :=
  match args[1]? with
  | none => (1, w, [.mkdirMissing])
  | some p =>
    match mkdirW w p with
    | some w2 => (0, w2, [])
    | none => (1, w, [.mkdirFail p])

/-- `builtin_touch` (ersh.c 455). -/
def builtin_touch (w : World) (args : List (List Char)) : Nat × World × List Msg :=
  match args[1]? with
  | none => (1, w, [.touchMissing])
  | some p =>
    match touchW w p with
    | some w2 => (0, w2, [])
    | none => (1, w, [.touchFail p])

/-! ## `rm` and the recursive remover (ersh.c 326-453) -/

/-- The inner flag-character scan of `builtin_rm` (ersh.c 338-344): `'f'`
sets force, `'r'`/`'R'` set recursive, all other characters are ignored. -/
def rmScanTok : List Char → Bool × Bool → Bool × Bool
  | [], st => st
  | c :: cs, (f, r) =>
    if c = 'f' then rmScanTok cs (true, r)
    else if c = 'r' ∨ c = 'R' then rmScanTok cs (f, true)
    else rmScanTok cs (f, r)

/-- The leading-flag loop of `builtin_rm` (ersh.c 337-346). -/
def rmFlagLoop : List (List Char) → Bool × Bool → Bool × Bool × List (List Char)
  | [], st => (st.1, st.2, [])
  | t :: rest, st =>
    if t.head? = some '-' then rmFlagLoop rest (rmScanTok t.tail st)
    else (st.1, st.2, t :: rest)

/-- The `readdir` loop body of `remove_directory_recursive` (ersh.c
410-449), processing the listed entry names in order.  `recurse` is the
recursive call at one less fuel.  Any failing entry returns `-1`
immediately, keeping the mutations made so far. -/
def removeEntries (recurse : World → List Char → Int × World) :
    World → List Char → List FName → Int × World
  | w, _, [] => (0, w)
  | w, path, nm :: rest =>
    if nm = ['.'] ∨ nm = ['.', '.'] then removeEntries recurse w path rest
    else
      match statW w (buildFullPath path nm) with
      | none => (-1, w)
      | some st =>
        if st.isDir then
          if (recurse w (buildFullPath path nm)).1 ≠ 0 then
            (-1, (recurse w (buildFullPath path nm)).2)
          else
            removeEntries recurse (recurse w (buildFullPath path nm)).2 path
              rest
        else
          match unlinkW w (buildFullPath path nm) with
          | some w2 => removeEntries recurse w2 path rest
          | none => (-1, w)

/-- `remove_directory_recursive` (ersh.c 403): open the directory, process
every entry, then `rmdir` the directory itself.  `fuel` bounds the C call
stack; exhausted fuel reports failure. -/
def remove_directory_recursive : Nat → World → List Char → Int × World
  | 0, w, _ => (-1, w)
  | fuel + 1, w, path =>
    match readdirW w path with
    | none => (-1, w)
    | some names =>
      if (removeEntries (remove_directory_recursive fuel) w path names).1 ≠ 0
      then removeEntries (remove_directory_recursive fuel) w path names
      else
        match
          rmdirW (removeEntries (remove_directory_recursive fuel) w path
            names).2 path with
        | some w3 => (0, w3)
        | none =>
          (-1,
            (removeEntries (remove_directory_recursive fuel) w path names).2)

/-- Enough fuel for any recursion inside `w`: every nested directory is a
distinct entry of the file table. -/
def rmFuel (w : World) : Nat := w.files.length + 1

/-- The per-path loop of `builtin_rm` (ersh.c 355-398).  For each path in
order: `stat` it; on failure abort with an error unless forced.  A directory
without the recursive flag prints an error and aborts unless forced; with it
the recursive remover runs, and its failure aborts with an error unless
forced.  A non-directory is unlinked, failure aborting with an error unless
forced. -/
def rmLoop (fuel : Nat) (force recursive : Bool) :
    World → List (List Char) → Nat × World × List Msg
  | w, [] => (0, w, [])
  | w, path :: rest =>
    match statW w path with
    | none =>
      if force then rmLoop fuel force recursive w rest
      else (1, w, [.rmCannotStat path])
    | some st =>
      if st.isDir then
        if !recursive then
          if force then
            ((rmLoop fuel force recursive w rest).1,
             (rmLoop fuel force recursive w rest).2.1,
             .rmIsDir path :: (rmLoop fuel force recursive w rest).2.2)
          else (1, w, [.rmIsDir path])
        else
          if (remove_directory_recursive fuel w path).1 ≠ 0 then
            if force then
              rmLoop fuel force recursive
                (remove_directory_recursive fuel w path).2 rest
            else
              (1, (remove_directory_recursive fuel w path).2,
                [.rmCannotRemoveDir path])
          else
            rmLoop fuel force recursive
              (remove_directory_recursive fuel w path).2 rest
      else
        match unlinkW w path with
        | some w2 => rmLoop fuel force recursive w2 rest
        | none =>
          if force then rmLoop fuel force recursive w rest
          else (1, w, [.rmCannotRemoveFile path])

/-- `builtin_rm` (ersh.c 326): missing-argument check, leading-flag parse,
missing-operand check, then the per-path loop. -/
def builtin_rm (w : World) (args : List (List Char)) : Nat × World × List Msg :=
  match args[1]? with
  | none => (1, w, [.rmMissingArg])
  | some _ =>
    let st := rmFlagLoop (args.drop 1) (false, false)
    match st.2.2 with
    | [] => (1, w, [.rmMissingOperand])
    | paths => rmLoop (rmFuel w) st.1 st.2.1 w paths

/-! ## Process launcher and dispatcher (`execute`, ersh.c 474-526) -/

/-- How a successfully exec'd child terminates: a normal exit (`code` is the
value `WEXITSTATUS` reports, i.e. the low 8 bits of the child's exit code)
or an abnormal termination (signal etc., `WIFEXITED` false). -/
inductive ChildResult where
  | exited (code : Nat)
  | signaled
deriving DecidableEq, Repr

/-- The host's process-creation behaviour for one launch: whether `fork`
succeeds, and — if the child runs — whether `execvp` replaces the image
(`some` result of the program) or fails (`none`: command not found). -/
structure ExtEnv where
  forkOk : Bool
  execRes : Option ChildResult
deriving DecidableEq, Repr

/-- Outcome of one dispatch: a status with the new world and output, or
termination of the interpreter process itself. -/
inductive ExecOut where
  | status (code : Nat) (w : World) (out : List Msg)
  | terminated (out : List Msg)
deriving DecidableEq, Repr

/-- The child branch (ersh.c 510-516): `execvp`, and on its failure a
"command not found" message and `_exit(127)`. -/
def childRun (env : ExtEnv) (cmd : List Char) : ChildResult × List Msg :=
  match env.execRes with
  | some r => (r, [])
  | none => (.exited 127, [.notFound cmd])

/-- The fork/exec/wait launcher (ersh.c 509-525): failed `fork` is an error
with status 1; otherwise the parent waits and maps a normal exit to its
code, an abnormal termination to 1.  External commands never change the
model world. -/
def launchExternal (env : ExtEnv) (w : World) (args : List (List Char)) :
    ExecOut :=
  if env.forkOk then
    let c := childRun env (args.headD [])
    match c.1 with
    | .exited code => .status code w c.2
    | .signaled => .status 1 w c.2
  else .status 1 w [.forkFailed]

/-- `builtin_exit` (ersh.c 106): `exit(0)` — the interpreter terminates. -/
def builtin_exit : ExecOut := .terminated []

/-- `builtin_poweroff` (ersh.c 303): prints its message, `sync`s, and either
replaces the process image with `/bin/poweroff` or exits — the interpreter
terminates either way. -/
def builtin_poweroff : ExecOut := .terminated [.poweroffMsg]

/-- Lift a builtin's `(status, world, output)` result. -/
def wrapB (r : Nat × World × List Msg) : ExecOut := .status r.1 r.2.1 r.2.2

/-- `execute` (ersh.c 474): empty vector is a successful no-op; otherwise
the first token is compared (`strcmp`) against each built-in name in source
order, and on no match the external launcher runs. -/
def execute (env : ExtEnv) (w : World) (args : List (List Char)) : ExecOut :=
  match args.head? with
  | none => .status 0 w []
  | some a0 =>
    if a0 = strL "cd" then wrapB (builtin_cd w args)
    else if a0 = strL "exit" then builtin_exit
    else if a0 = strL "help" then wrapB (builtin_help w args)
    else if a0 = strL "ls" then wrapB (builtin_ls w args)
    else if a0 = strL "mkdir" then wrapB (builtin_mkdir w args)
    else if a0 = strL "poweroff" then builtin_poweroff
    else if a0 = strL "pwd" then wrapB (builtin_pwd w args)
    else if a0 = strL "rm" then wrapB (builtin_rm w args)
    else if a0 = strL "touch" then wrapB (builtin_touch w args)
    else launchExternal env w args

/-- The built-in catalog as a first-match lookup table, written from the
spec's words (fixed priority order, name paired with handler). -/
def builtinTable : List ((List Char) × (ExtEnv → World → List (List Char) → ExecOut)) :=
  [(strL "cd", fun _ w a => wrapB (builtin_cd w a)),
   (strL "exit", fun _ _ _ => builtin_exit),
   (strL "help", fun _ w a => wrapB (builtin_help w a)),
   (strL "ls", fun _ w a => wrapB (builtin_ls w a)),
   (strL "mkdir", fun _ w a => wrapB (builtin_mkdir w a)),
   (strL "poweroff", fun _ _ _ => builtin_poweroff),
   (strL "pwd", fun _ w a => wrapB (builtin_pwd w a)),
   (strL "rm", fun _ w a => wrapB (builtin_rm w a)),
   (strL "touch", fun _ w a => wrapB (builtin_touch w a))]

/-- The nine built-in names, in dispatch order. -/
def builtinNames : List (List Char) := builtinTable.map (fun e => e.1)

/-- Spec-side dispatcher: empty vector is a successful no-op; otherwise the
first token is looked up in the table (first match wins) and the matching
handler gets the full vector; no match delegates to the launcher. -/
def dispatchSpec (env : ExtEnv) (w : World) (args : List (List Char)) :
    ExecOut :=
  match args.head? with
  | none => .status 0 w []
  | some a0 =>
    match builtinTable.find? (fun e => e.1 == a0) with
    | some e => e.2 env w args
    | none => launchExternal env w args

/-- One iteration of the `main` read loop (ersh.c 535-550) on one input
chunk: `none` input is end-of-input (`read` returned `<= 0`, the loop
breaks); otherwise the chunk is tokenized and dispatched when non-empty.
The result is `none` exactly when the interpreter terminates. -/
def mainStep (env : ExtEnv) (w : World) (input : Option (List Char)) :
    Option (World × List Msg) :=
  match input with
  | none => none
  | some line =>
    match parse_args line with
    | [] => some (w, [])
    | a :: rest =>
      match execute env w (a :: rest) with
      | .status _ w2 out => some (w2, out)
      | .terminated _ => none

/-! ## Claim theorems -/

/-- An all-delimiter line has no tokens. -/
theorem specTokens_all_delim (line : List Char)
    (h : ∀ c ∈ line, isDelim c = true) : specTokens line = [] := by
  induction line with
  | nil => simp [specTokens]
  | cons c cs ih =>
    have hc : isDelim c = true := h c (by simp)
    unfold specTokens at ih ⊢
    simp only [List.splitOnP_cons, hc, if_true, List.filter_cons]
    simpa using ih (fun x hx => h x (by simp [hx]))

/-- C3: for every input line with at most 63 whitespace-separated tokens,
`parse_args` produces exactly the non-empty tokens split on
space/tab/newline in order; the argument-array slot after the last token is
the `NULL` sentinel; an empty or all-whitespace line yields zero tokens; and
on any line the tokens beyond the 63-token cap are silently dropped
(`parse_args` is the 63-token truncation of the token sequence). -/
theorem C3_tokenizer (line : List Char)
    (h : (specTokens line).length ≤ 63) :
    parse_args line = specTokens line ∧
    argvSlot line (parse_args line).length = none ∧
    ((∀ c ∈ line, isDelim c = true) → parse_args line = []) ∧
    (∀ l2 : List Char, parse_args l2 = (specTokens l2).take 63) := by
  have hgen : ∀ l2 : List Char, parse_args l2 = (specTokens l2).take 63 := by
    intro l2
    unfold parse_args
    rw [strtokAll_eq_specTokens]
  refine ⟨?_, ?_, ?_, hgen⟩
  · rw [hgen line]
    exact List.take_of_length_le h
  · unfold argvSlot
    exact List.getElem?_eq_none (Nat.le_refl _)
  · intro hall
    rw [hgen line, specTokens_all_delim line hall]
    rfl

/-- Witness for C3 on the line `"ls -l /tmp\n"`. -/
theorem C3_tokenizer_witness :
    (specTokens (strL "ls -l /tmp\n")).length ≤ 63 ∧
      (parse_args (strL "ls -l /tmp\n") = specTokens (strL "ls -l /tmp\n") ∧
        argvSlot (strL "ls -l /tmp\n")
          (parse_args (strL "ls -l /tmp\n")).length = none ∧
        ((∀ c ∈ strL "ls -l /tmp\n", isDelim c = true) →
          parse_args (strL "ls -l /tmp\n") = []) ∧
        (∀ l2 : List Char, parse_args l2 = (specTokens l2).take 63)) :=
  ⟨by decide, C3_tokenizer (strL "ls -l /tmp\n") (by decide)⟩

/-- C2: the external launcher.  If `fork` fails the launcher reports an
error and returns status 1 (a `status`, so the interpreter loop survives).
If the child's `execvp` fails, the child prints "command not found" and
exits with 127, which the launcher passes through.  A normally-exited child
passes its own exit status through; an abnormally-terminated child maps to
status 1.  In every case the launcher yields a `status`, never interpreter
termination. -/
theorem C2_launcher (env : ExtEnv) (w : World) (args : List (List Char)) :
    (env.forkOk = false →
      launchExternal env w args = .status 1 w [.forkFailed]) ∧
    (env.forkOk = true → env.execRes = none →
      childRun env (args.headD []) =
        (.exited 127, [.notFound (args.headD [])]) ∧
      launchExternal env w args =
        .status 127 w [.notFound (args.headD [])]) ∧
    (∀ code, env.forkOk = true → env.execRes = some (.exited code) →
      launchExternal env w args = .status code w []) ∧
    (env.forkOk = true → env.execRes = some .signaled →
      launchExternal env w args = .status 1 w []) ∧
    (∃ code w2 out, launchExternal env w args = .status code w2 out) := by
  refine ⟨?_, ?_, ?_, ?_, ?_⟩
  · intro hf
    simp [launchExternal, hf]
  · intro hf he
    constructor
    · simp [childRun, he]
    · simp [launchExternal, hf, childRun, he]
  · intro code hf he
    simp [launchExternal, hf, childRun, he]
  · intro hf he
    simp [launchExternal, hf, childRun, he]
  · unfold launchExternal childRun
    cases hf : env.forkOk
    · exact ⟨1, w, [.forkFailed], by simp⟩
    · cases he : env.execRes with
      | none => exact ⟨127, w, [.notFound (args.headD [])], by simp⟩
      | some r =>
        cases r with
        | exited code => exact ⟨code, w, [], by simp⟩
        | signaled => exact ⟨1, w, [], by simp⟩

/-- Witness for C2: a concrete failed-exec launch returns 127 with the
"command not found" message. -/
theorem C2_launcher_witness :
    launchExternal ⟨true, none⟩ ⟨[], []⟩ [strL "nosuch"] =
      .status 127 ⟨[], []⟩ [.notFound (strL "nosuch")] :=
  ((C2_launcher ⟨true, none⟩ ⟨[], []⟩ [strL "nosuch"]).2.1 rfl rfl).2

/-- The launcher always yields a status (it never terminates the
interpreter). -/
theorem launchExternal_is_status (env : ExtEnv) (w : World)
    (args : List (List Char)) :
    ∃ code w2 out, launchExternal env w args = .status code w2 out := by
  unfold launchExternal childRun
  cases hf : env.forkOk
  · exact ⟨1, w, [.forkFailed], by simp⟩
  · cases he : env.execRes with
    | none => exact ⟨127, w, [.notFound (args.headD [])], by simp⟩
    | some r =>
      cases r with
      | exited code => exact ⟨code, w, [], by simp⟩
      | signaled => exact ⟨1, w, [], by simp⟩

/-- Dispatch terminates the interpreter exactly for the `exit` and
`poweroff` built-ins. -/
theorem execute_terminated_iff (env : ExtEnv) (w : World) (a0 : List Char)
    (rest : List (List Char)) :
    (∃ out, execute env w (a0 :: rest) = .terminated out) ↔
      a0 = strL "exit" ∨ a0 = strL "poweroff" := by
  unfold execute
  simp only [List.head?_cons]
  split_ifs with h1 h2 h3 h4 h5 h6 h7 h8 h9
  · constructor
    · rintro ⟨o, ho⟩; simp [wrapB] at ho
    · intro hr; subst h1; exact absurd hr (by decide)
  · exact ⟨fun _ => Or.inl h2, fun _ => ⟨[], rfl⟩⟩
  · constructor
    · rintro ⟨o, ho⟩; simp [wrapB] at ho
    · intro hr; subst h3; exact absurd hr (by decide)
  · constructor
    · rintro ⟨o, ho⟩; simp [wrapB] at ho
    · intro hr; subst h4; exact absurd hr (by decide)
  · constructor
    · rintro ⟨o, ho⟩; simp [wrapB] at ho
    · intro hr; subst h5; exact absurd hr (by decide)
  · exact ⟨fun _ => Or.inr h6, fun _ => ⟨[.poweroffMsg], rfl⟩⟩
  · constructor
    · rintro ⟨o, ho⟩; simp [wrapB] at ho
    · intro hr; subst h7; exact absurd hr (by decide)
  · constructor
    · rintro ⟨o, ho⟩; simp [wrapB] at ho
    · intro hr; subst h8; exact absurd hr (by decide)
  · constructor
    · rintro ⟨o, ho⟩; simp [wrapB] at ho
    · intro hr; subst h9; exact absurd hr (by decide)
  · constructor
    · rintro ⟨o, ho⟩
      obtain ⟨c, w2, oo, hL⟩ := launchExternal_is_status env w (a0 :: rest)
      rw [hL] at ho
      cases ho
    · intro hr
      rcases hr with hr | hr
      · exact absurd hr h2
      · exact absurd hr h6

/-- C8: the interpreter's terminal state is reached exactly on end-of-input
or when the dispatched first token is `exit` or `poweroff`; every other
dispatch (any other built-in or any external command, whatever its status)
returns to awaiting the next line. -/
theorem C8_terminal_state (env : ExtEnv) (w : World) (line : List Char) :
    mainStep env w none = none ∧
    (mainStep env w (some line) = none ↔
      (parse_args line).head? = some (strL "exit") ∨
      (parse_args line).head? = some (strL "poweroff")) := by
  constructor
  · rfl
  · cases hp : parse_args line with
    | nil =>
      simp only [mainStep]
      rw [hp]
      simp
    | cons a rest =>
      simp only [mainStep]
      rw [hp]
      simp only [List.head?_cons, Option.some.injEq]
      have h := execute_terminated_iff env w a rest
      cases hexec : execute env w (a :: rest) with
      | status c w2 out =>
        constructor
        · intro habs; cases habs
        · intro hr
          obtain ⟨o, ho⟩ := h.mpr hr
          rw [hexec] at ho
          cases ho
      | terminated out =>
        constructor
        · intro _
          exact h.mp ⟨out, hexec⟩
        · intro _; rfl

/-- When the first token matches no built-in name, `execute` falls through
to the launcher. -/
theorem execute_no_builtin (env : ExtEnv) (w : World) (a0 : List Char)
    (rest : List (List Char))
    (h1 : a0 ≠ strL "cd") (h2 : a0 ≠ strL "exit") (h3 : a0 ≠ strL "help")
    (h4 : a0 ≠ strL "ls") (h5 : a0 ≠ strL "mkdir") (h6 : a0 ≠ strL "poweroff")
    (h7 : a0 ≠ strL "pwd") (h8 : a0 ≠ strL "rm") (h9 : a0 ≠ strL "touch") :
    execute env w (a0 :: rest) = launchExternal env w (a0 :: rest) := by
  unfold execute
  simp only [List.head?_cons, if_neg h1, if_neg h2, if_neg h3, if_neg h4,
    if_neg h5, if_neg h6, if_neg h7, if_neg h8, if_neg h9]

/-- When the first token matches no built-in name, the table lookup of the
spec-side dispatcher fails. -/
theorem table_no_builtin (a0 : List Char)
    (h1 : a0 ≠ strL "cd") (h2 : a0 ≠ strL "exit") (h3 : a0 ≠ strL "help")
    (h4 : a0 ≠ strL "ls") (h5 : a0 ≠ strL "mkdir") (h6 : a0 ≠ strL "poweroff")
    (h7 : a0 ≠ strL "pwd") (h8 : a0 ≠ strL "rm") (h9 : a0 ≠ strL "touch") :
    builtinTable.find? (fun e => e.1 == a0) = none := by
  have b1 : (strL "cd" == a0) = false := beq_eq_false_iff_ne.mpr (fun hh => h1 hh.symm)
  have b2 : (strL "exit" == a0) = false := beq_eq_false_iff_ne.mpr (fun hh => h2 hh.symm)
  have b3 : (strL "help" == a0) = false := beq_eq_false_iff_ne.mpr (fun hh => h3 hh.symm)
  have b4 : (strL "ls" == a0) = false := beq_eq_false_iff_ne.mpr (fun hh => h4 hh.symm)
  have b5 : (strL "mkdir" == a0) = false := beq_eq_false_iff_ne.mpr (fun hh => h5 hh.symm)
  have b6 : (strL "poweroff" == a0) = false := beq_eq_false_iff_ne.mpr (fun hh => h6 hh.symm)
  have b7 : (strL "pwd" == a0) = false := beq_eq_false_iff_ne.mpr (fun hh => h7 hh.symm)
  have b8 : (strL "rm" == a0) = false := beq_eq_false_iff_ne.mpr (fun hh => h8 hh.symm)
  have b9 : (strL "touch" == a0) = false := beq_eq_false_iff_ne.mpr (fun hh => h9 hh.symm)
  simp only [builtinTable, List.find?, b1, b2, b3, b4, b5, b6, b7, b8, b9]

/-- C4: the dispatcher.  It coincides with the spec-side first-match table
dispatcher; an empty vector is a successful no-op; and a first token that
equals no built-in name (case-sensitively, exactly) is delegated to the
process launcher. -/
theorem C4_dispatcher (env : ExtEnv) (w : World) (args : List (List Char)) :
    execute env w args = dispatchSpec env w args ∧
    execute env w [] = .status 0 w [] ∧
    (∀ a0 rest, a0 ∉ builtinNames →
      execute env w (a0 :: rest) = launchExternal env w (a0 :: rest)) := by
  have hnames : ∀ a0 : List Char, a0 ∉ builtinNames →
      a0 ≠ strL "cd" ∧ a0 ≠ strL "exit" ∧ a0 ≠ strL "help" ∧ a0 ≠ strL "ls" ∧
      a0 ≠ strL "mkdir" ∧ a0 ≠ strL "poweroff" ∧ a0 ≠ strL "pwd" ∧
      a0 ≠ strL "rm" ∧ a0 ≠ strL "touch" := by
    intro a0 h
    simp only [builtinNames, builtinTable, List.map_cons, List.map_nil,
      List.mem_cons, List.not_mem_nil, or_false, not_or] at h
    exact h
  refine ⟨?_, rfl, ?_⟩
  · cases args with
    | nil => rfl
    | cons a0 rest =>
      by_cases h1 : a0 = strL "cd"
      · subst h1; rfl
      by_cases h2 : a0 = strL "exit"
      · subst h2; rfl
      by_cases h3 : a0 = strL "help"
      · subst h3; rfl
      by_cases h4 : a0 = strL "ls"
      · subst h4; rfl
      by_cases h5 : a0 = strL "mkdir"
      · subst h5; rfl
      by_cases h6 : a0 = strL "poweroff"
      · subst h6; rfl
      by_cases h7 : a0 = strL "pwd"
      · subst h7; rfl
      by_cases h8 : a0 = strL "rm"
      · subst h8; rfl
      by_cases h9 : a0 = strL "touch"
      · subst h9; rfl
      rw [execute_no_builtin env w a0 rest h1 h2 h3 h4 h5 h6 h7 h8 h9]
      unfold dispatchSpec
      simp only [List.head?_cons,
        table_no_builtin a0 h1 h2 h3 h4 h5 h6 h7 h8 h9]
  · intro a0 rest h
    obtain ⟨h1, h2, h3, h4, h5, h6, h7, h8, h9⟩ := hnames a0 h
    exact execute_no_builtin env w a0 rest h1 h2 h3 h4 h5 h6 h7 h8 h9

/-- Witness for C4: a non-built-in first token (`"cp"`) is delegated to the
launcher. -/
theorem C4_dispatcher_witness :
    execute ⟨true, some (.exited 0)⟩ ⟨[], []⟩ [strL "cp"] =
      launchExternal ⟨true, some (.exited 0)⟩ ⟨[], []⟩ [strL "cp"] :=
  (C4_dispatcher ⟨true, some (.exited 0)⟩ ⟨[], []⟩ [strL "cp"]).2.2
    (strL "cp") [] (by decide)

/-- C7: `cd`.  With no argument it errors with status 1.  When `chdir`
fails the status is 1 and the working directory (indeed the whole world) is
unchanged.  When the path resolves to an existing directory, `cd` succeeds
and only the working directory changes, and a subsequent `pwd` prints that
directory's absolute path. -/
theorem C7_cd (w : World) (p : List Char) :
    builtin_cd w [strL "cd"] = (1, w, [.cdMissing]) ∧
    (chdirW w p = none → builtin_cd w [strL "cd", p] = (1, w, [.cdFail])) ∧
    (∀ comps, resolveW w p = some comps → isDirAt w comps = true →
      (renderCwd comps).length < 1024 →
      builtin_cd w [strL "cd", p] = (0, ⟨w.files, comps⟩, []) ∧
      builtin_pwd ⟨w.files, comps⟩ [strL "pwd"] =
        (0, ⟨w.files, comps⟩, [.pwdOut (renderCwd comps)])) := by
  refine ⟨rfl, ?_, ?_⟩
  · intro h
    simp [builtin_cd, h]
  · intro comps hres hdir hlen
    have hch : chdirW w p = some ⟨w.files, comps⟩ := by
      simp [chdirW, hres, hdir]
    constructor
    · simp [builtin_cd, hch]
    · unfold builtin_pwd
      simp only [if_pos hlen]

/-- Witness for C7: in a world with directory `d`, `cd d` then `pwd`
reports `/d`. -/
theorem C7_cd_witness :
    resolveW ⟨[([strL "d"], .dir 0o755 4096)], []⟩ (strL "d") = some [strL "d"] ∧
      (builtin_cd ⟨[([strL "d"], .dir 0o755 4096)], []⟩ [strL "cd", strL "d"] =
        (0, ⟨[([strL "d"], .dir 0o755 4096)], [strL "d"]⟩, []) ∧
       builtin_pwd ⟨[([strL "d"], .dir 0o755 4096)], [strL "d"]⟩ [strL "pwd"] =
        (0, ⟨[([strL "d"], .dir 0o755 4096)], [strL "d"]⟩,
          [.pwdOut (renderCwd [strL "d"])])) :=
  ⟨by decide,
   (C7_cd ⟨[([strL "d"], .dir 0o755 4096)], []⟩ (strL "d")).2.2 [strL "d"]
     (by decide) (by decide) (by decide)⟩

/-- Value of a digit string, least significant digit first. -/
def decodeDecLE : List Char → Nat
  | [] => 0
  | c :: cs => (c.toNat - 48) + 10 * decodeDecLE cs

/-- Permission bits of an object's metadata. -/
def infoPerm : Info → Nat
  | .file p _ => p
  | .dir p _ => p

/-- A digit character's code point. -/
theorem char_digit_toNat (m : Nat) (h : m < 10) :
    (Char.ofNat (48 + m)).toNat = 48 + m := by
  interval_cases m <;> decide

/-- A digit character is a digit. -/
theorem char_digit_isDigit (m : Nat) (h : m < 10) :
    (Char.ofNat (48 + m)).isDigit = true := by
  interval_cases m <;> decide

/-- A nonzero digit character is not `'0'`. -/
theorem char_digit_ne_zero (m : Nat) (h : m < 10) (h2 : 0 < m) :
    Char.ofNat (48 + m) ≠ '0' := by
  interval_cases m <;> decide

/-- Zero produces no digits at any fuel. -/
theorem digitsRevAux_zero (f : Nat) : digitsRevAux f 0 = [] := by
  cases f <;> simp [digitsRevAux]

/-- The digit loop unfolds once on a nonzero value. -/
theorem digitsRevAux_succ (f n : Nat) (h : n ≠ 0) :
    digitsRevAux (f + 1) n =
      Char.ofNat (48 + n % 10) :: digitsRevAux f (n / 10) := by
  simp [digitsRevAux, h]

/-- With enough fuel, the digit string decodes back to the number. -/
theorem decode_digitsRevAux :
    ∀ f n, n ≤ f → decodeDecLE (digitsRevAux f n) = n := by
  intro f
  induction f with
  | zero =>
    intro n h
    interval_cases n
    simp [digitsRevAux, decodeDecLE]
  | succ f ih =>
    intro n h
    by_cases hn : n = 0
    · subst hn; simp [digitsRevAux, decodeDecLE]
    · rw [digitsRevAux_succ f n hn]
      unfold decodeDecLE
      rw [ih (n / 10) (by omega), char_digit_toNat _ (by omega)]
      omega

/-- With enough fuel, a positive value yields digits. -/
theorem digitsRevAux_ne_nil (f n : Nat) (h1 : 0 < n) (h2 : n ≤ f) :
    digitsRevAux f n ≠ [] := by
  cases f with
  | zero => omega
  | succ f =>
    rw [digitsRevAux_succ f n (by omega)]
    simp

/-- The most significant digit (the last of the reversed digit list) of a
positive value is not `'0'`. -/
theorem digitsRevAux_getLast_ne :
    ∀ f n, 0 < n → n ≤ f →
      ∃ d, (digitsRevAux f n).getLast? = some d ∧ d ≠ '0' := by
  intro f
  induction f with
  | zero => intro n h1 h2; omega
  | succ f ih =>
    intro n h1 h2
    rw [digitsRevAux_succ f n (by omega)]
    by_cases h10 : n / 10 = 0
    · rw [h10, digitsRevAux_zero]
      exact ⟨Char.ofNat (48 + n % 10), rfl,
        char_digit_ne_zero _ (by omega) (by omega)⟩
    · obtain ⟨d, hd, hdz⟩ := ih (n / 10) (by omega) (by omega)
      refine ⟨d, ?_, hdz⟩
      obtain ⟨b, l2, hb⟩ :=
        List.exists_cons_of_ne_nil (digitsRevAux_ne_nil f (n / 10) (by omega) (by omega))
      rw [hb, List.getLast?_cons_cons, ← hb, hd]

/-- The digit count is bounded by the decimal magnitude. -/
theorem digitsRevAux_length_le :
    ∀ f n k, n < 10 ^ k → (digitsRevAux f n).length ≤ k := by
  intro f
  induction f with
  | zero => intro n k _; simp [digitsRevAux]
  | succ f ih =>
    intro n k h
    by_cases hn : n = 0
    · subst hn; simp [digitsRevAux_zero]
    · rw [digitsRevAux_succ f n hn]
      cases k with
      | zero => simp at h; omega
      | succ k =>
        simp only [List.length_cons]
        have hdiv : n / 10 < 10 ^ k := by
          rw [Nat.div_lt_iff_lt_mul (by norm_num)]
          calc n < 10 ^ (k + 1) := h
          _ = 10 ^ k * 10 := by ring
        exact Nat.succ_le_succ (ih (n / 10) k hdiv)

/-- Every produced character is a digit. -/
theorem digitsRevAux_all_digits :
    ∀ f n c, c ∈ digitsRevAux f n → c.isDigit = true := by
  intro f
  induction f with
  | zero => intro n c hc; simp [digitsRevAux] at hc
  | succ f ih =>
    intro n c hc
    by_cases hn : n = 0
    · subst hn; rw [digitsRevAux_zero] at hc; simp at hc
    · rw [digitsRevAux_succ f n hn] at hc
      rcases List.mem_cons.mp hc with rfl | hc
      · exact char_digit_isDigit _ (by omega)
      · exact ih (n / 10) c hc

/-- Permission bits stay below the file-type bits: adding `S_IFDIR` keeps
exactly `S_IFDIR` under the `S_IFMT` mask. -/
theorem mode_mask_dir (perm : Nat) (hp : perm < 4096) :
    (16384 + perm) &&& 61440 = 16384 := by
  apply Nat.eq_of_testBit_eq
  intro i
  rw [Nat.testBit_and]
  rcases Nat.lt_or_ge i 16 with hi | hi
  · interval_cases i <;> simp only [Nat.testBit_to_div_mod] <;> norm_num <;> omega
  · have h1 : (16384 + perm : Nat) < 2 ^ i := by
      calc (16384 + perm : Nat) < 65536 := by omega
      _ = 2 ^ 16 := by norm_num
      _ ≤ 2 ^ i := Nat.pow_le_pow_right (by norm_num) hi
    have h2 : (16384 : Nat) < 2 ^ i := by omega
    rw [Nat.testBit_lt_two_pow h1, Nat.testBit_lt_two_pow h2]
    simp

/-- Adding `S_IFREG` keeps exactly `S_IFREG` under the `S_IFMT` mask. -/
theorem mode_mask_file (perm : Nat) (hp : perm < 4096) :
    (32768 + perm) &&& 61440 = 32768 := by
  apply Nat.eq_of_testBit_eq
  intro i
  rw [Nat.testBit_and]
  rcases Nat.lt_or_ge i 16 with hi | hi
  · interval_cases i <;> simp only [Nat.testBit_to_div_mod] <;> norm_num <;> omega
  · have h1 : (32768 + perm : Nat) < 2 ^ i := by
      calc (32768 + perm : Nat) < 65536 := by omega
      _ = 2 ^ 16 := by norm_num
      _ ≤ 2 ^ i := Nat.pow_le_pow_right (by norm_num) hi
    have h2 : (32768 : Nat) < 2 ^ i := by omega
    rw [Nat.testBit_lt_two_pow h1, Nat.testBit_lt_two_pow h2]
    simp

/-- The single-bit permission masks test exactly one bit. -/
theorem perm_char_eq (mode i p : Nat) (hp : p = 2 ^ i) (c : Char) :
    (if mode &&& p ≠ 0 then c else '-') =
      (if mode.testBit i then c else '-') := by
  subst hp
  rw [Nat.and_two_pow]
  cases h : mode.testBit i <;> simp

/-- C6 (amended): in an `ls -l` line the permission string is 10 characters
with the entry-type flag first and the nine testBit-indexed rwx positions
after it; the size field is 10 characters, space-padded on the left around
decimal digits with no leading zero (`0` as the single digit `'0'`); and the
line is the permission string, ONE SPACE, the size field, two spaces, and
the entry name — the single separator space after the permission string is
what the amendment adds to the claim.  The last clause ties the line to the
`ls` loop for an entry whose `stat` succeeds. -/
theorem C6_ls_long_format (mode size : Nat) (nm : FName)
    (hsz : size < 10 ^ 10) :
    lsLongLine mode size nm =
      write_permissions mode ++ ' ' ::
        (write_size_aligned size ++ ' ' :: ' ' :: nm) ∧
    (write_permissions mode).length = 10 ∧
    (write_size_aligned size).length = 10 ∧
    (∃ ds : List Char, ds ≠ [] ∧
      write_size_aligned size = List.replicate (10 - ds.length) ' ' ++ ds ∧
      (∀ c ∈ ds, c.isDigit = true) ∧
      decodeDecLE ds.reverse = size ∧
      (size = 0 → ds = ['0']) ∧
      (0 < size → ds.head? ≠ some '0')) ∧
    (write_permissions mode).tail =
      [if mode.testBit 8 then 'r' else '-',
       if mode.testBit 7 then 'w' else '-',
       if mode.testBit 6 then 'x' else '-',
       if mode.testBit 5 then 'r' else '-',
       if mode.testBit 4 then 'w' else '-',
       if mode.testBit 3 then 'x' else '-',
       if mode.testBit 2 then 'r' else '-',
       if mode.testBit 1 then 'w' else '-',
       if mode.testBit 0 then 'x' else '-'] ∧
    (∀ info : Info, infoPerm info < 4096 →
      (write_permissions (infoStat info).mode).head? =
        some (if (infoStat info).isDir then 'd' else '-')) ∧
    (∀ (w : World) (path : List Char) (st : StatRec),
      statW w (buildFullPath path nm) = some st →
      lsEntry w true path nm = .lsLine (lsLongLine st.mode st.size nm)) := by
  have hds : (if size = 0 then ['0'] else digitsRev size).length ≤ 10 := by
    by_cases h0 : size = 0
    · simp [h0]
    · simp only [h0, if_false]
      exact digitsRevAux_length_le size size 10 hsz
  refine ⟨rfl, rfl, ?_, ?_, ?_, ?_, ?_⟩
  · unfold write_size_aligned
    simp only [List.length_append, List.length_replicate, List.length_reverse]
    omega
  · refine ⟨(if size = 0 then ['0'] else digitsRev size).reverse, ?_, ?_, ?_, ?_, ?_, ?_⟩
    · by_cases h0 : size = 0
      · simp [h0]
      · simp only [h0, if_false]
        simpa using digitsRevAux_ne_nil size size (by omega) (Nat.le_refl _)
    · unfold write_size_aligned
      rw [List.length_reverse]
    · intro c hc
      rw [List.mem_reverse] at hc
      by_cases h0 : size = 0
      · rw [h0] at hc
        simp at hc
        subst hc
        decide
      · rw [if_neg h0] at hc
        exact digitsRevAux_all_digits size size c hc
    · rw [List.reverse_reverse]
      by_cases h0 : size = 0
      · simp [h0, decodeDecLE]
      · rw [if_neg h0]
        exact decode_digitsRevAux size size (Nat.le_refl _)
    · intro h0
      simp [h0]
    · intro h0
      rw [if_neg (by omega)]
      obtain ⟨d, hd, hdz⟩ :=
        digitsRevAux_getLast_ne size size h0 (Nat.le_refl _)
      rw [List.head?_reverse]
      unfold digitsRev
      rw [hd]
      simpa using hdz
  · show [if mode &&& 256 ≠ 0 then 'r' else '-',
      if mode &&& 128 ≠ 0 then 'w' else '-',
      if mode &&& 64 ≠ 0 then 'x' else '-',
      if mode &&& 32 ≠ 0 then 'r' else '-',
      if mode &&& 16 ≠ 0 then 'w' else '-',
      if mode &&& 8 ≠ 0 then 'x' else '-',
      if mode &&& 4 ≠ 0 then 'r' else '-',
      if mode &&& 2 ≠ 0 then 'w' else '-',
      if mode &&& 1 ≠ 0 then 'x' else '-'] = _
    rw [perm_char_eq mode 8 256 (by norm_num) 'r',
      perm_char_eq mode 7 128 (by norm_num) 'w',
      perm_char_eq mode 6 64 (by norm_num) 'x',
      perm_char_eq mode 5 32 (by norm_num) 'r',
      perm_char_eq mode 4 16 (by norm_num) 'w',
      perm_char_eq mode 3 8 (by norm_num) 'x',
      perm_char_eq mode 2 4 (by norm_num) 'r',
      perm_char_eq mode 1 2 (by norm_num) 'w',
      perm_char_eq mode 0 1 (by norm_num) 'x']
  · intro info hperm
    cases info with
    | dir p s =>
      show some (if (16384 + p) &&& 61440 = 16384 then 'd' else '-') = _
      rw [if_pos (mode_mask_dir p (by simpa [infoPerm] using hperm))]
      rfl
    | file p s =>
      show some (if (32768 + p) &&& 61440 = 16384 then 'd' else '-') = _
      rw [if_neg (by rw [mode_mask_file p (by simpa [infoPerm] using hperm)]; omega)]
      rfl
  · intro w path st hst
    simp [lsEntry, hst]

/-- Counterexample for C6 as stated: with mode `0o100644`, size 12 and name
`"f"`, the actual `ls -l` line differs from the spec-stated layout (which
omits the single space between the permission string and the size field). -/
theorem C6_stated_line_counterexample :
    lsLongLine 33188 12 (strL "f") ≠ specStatedLine 33188 12 (strL "f") := by
  decide

/-- Witness for C6 at size 12. -/
theorem C6_ls_long_format_witness :
    (write_size_aligned 12).length = 10 :=
  (C6_ls_long_format 33188 12 (strL "f") (by norm_num)).2.2.1

/-- A flag token without `'a'`/`'l'` leaves the `ls` flag state unchanged. -/
theorem lsScanTok_id : ∀ (cs : List Char) (sa lf : Bool),
    'a' ∉ cs → 'l' ∉ cs → lsScanTok cs (sa, lf) = (sa, lf) := by
  intro cs
  induction cs with
  | nil => intro sa lf _ _; rfl
  | cons c cs ih =>
    intro sa lf hna hnl
    have hca : c ≠ 'a' := fun h => hna (h ▸ List.mem_cons_self c cs)
    have hcl : c ≠ 'l' := fun h => hnl (h ▸ List.mem_cons_self c cs)
    simp only [lsScanTok, if_neg hca, if_neg hcl]
    exact ih sa lf (fun h => hna (List.mem_cons_of_mem c h))
      (fun h => hnl (List.mem_cons_of_mem c h))

/-- A flag token without `'f'`/`'r'`/`'R'` leaves the `rm` flag state
unchanged. -/
theorem rmScanTok_id : ∀ (cs : List Char) (f r : Bool),
    'f' ∉ cs → 'r' ∉ cs → 'R' ∉ cs → rmScanTok cs (f, r) = (f, r) := by
  intro cs
  induction cs with
  | nil => intro f r _ _ _; rfl
  | cons c cs ih =>
    intro f r hnf hnr hnR
    have hcf : c ≠ 'f' := fun h => hnf (h ▸ List.mem_cons_self c cs)
    have hcr : ¬(c = 'r' ∨ c = 'R') := by
      rintro (h | h)
      · exact hnr (h ▸ List.mem_cons_self c cs)
      · exact hnR (h ▸ List.mem_cons_self c cs)
    simp only [rmScanTok, if_neg hcf, if_neg hcr]
    exact ih f r (fun h => hnf (List.mem_cons_of_mem c h))
      (fun h => hnr (List.mem_cons_of_mem c h))
      (fun h => hnR (List.mem_cons_of_mem c h))

/-- After the `ls` flag loop, the first remaining token (the one used as the
path operand) never begins with `'-'`. -/
theorem lsFlagLoop_rest_no_dash : ∀ (toks : List (List Char)) (st : Bool × Bool)
    (p : List Char), ((lsFlagLoop toks st).2.2).head? = some p →
    p.head? ≠ some '-' := by
  intro toks
  induction toks with
  | nil => intro st p hp; simp [lsFlagLoop] at hp
  | cons t rest ih =>
    intro st p hp
    by_cases hd : t.head? = some '-'
    · rw [lsFlagLoop, if_pos hd] at hp
      exact ih _ p hp
    · rw [lsFlagLoop, if_neg hd] at hp
      simp only [List.head?_cons, Option.some.injEq] at hp
      subst hp
      exact hd

/-- After the `rm` flag loop, the first remaining token (the first path
operand) never begins with `'-'`. -/
theorem rmFlagLoop_rest_no_dash : ∀ (toks : List (List Char)) (st : Bool × Bool)
    (p : List Char), ((rmFlagLoop toks st).2.2).head? = some p →
    p.head? ≠ some '-' := by
  intro toks
  induction toks with
  | nil => intro st p hp; simp [rmFlagLoop] at hp
  | cons t rest ih =>
    intro st p hp
    by_cases hd : t.head? = some '-'
    · rw [rmFlagLoop, if_pos hd] at hp
      exact ih _ p hp
    · rw [rmFlagLoop, if_neg hd] at hp
      simp only [List.head?_cons, Option.some.injEq] at hp
      subst hp
      exact hd

/-- C10 (amended): every leading `'-'`-token is consumed as a flag and
unrecognized flag characters are silently ignored, so `ls` with an
unrecognized flag token behaves exactly like `ls` without it, and likewise
`rm` (when an operand remains); and the path operand chosen by `ls` and the
FIRST operand of `rm` never begin with `'-'`.  (The original claim's final
clause fails: `rm`'s operands after the first can begin with `'-'`, see the
counterexample.) -/
theorem C10_flag_handling (w : World) :
    (∀ t rest, t.head? = some '-' → 'a' ∉ t → 'l' ∉ t →
      builtin_ls w (strL "ls" :: t :: rest) =
        builtin_ls w (strL "ls" :: rest)) ∧
    (∀ t rest, t.head? = some '-' → 'f' ∉ t → 'r' ∉ t → 'R' ∉ t →
      rest ≠ [] →
      builtin_rm w (strL "rm" :: t :: rest) =
        builtin_rm w (strL "rm" :: rest)) ∧
    (∀ toks st p, ((lsFlagLoop toks st).2.2).head? = some p →
      p.head? ≠ some '-') ∧
    (∀ toks st p, ((rmFlagLoop toks st).2.2).head? = some p →
      p.head? ≠ some '-') := by
  refine ⟨?_, ?_, lsFlagLoop_rest_no_dash, rmFlagLoop_rest_no_dash⟩
  · intro t rest hdash hna hnl
    have hscan : lsScanTok t.tail (false, false) = (false, false) :=
      lsScanTok_id _ _ _ (fun h => hna (List.mem_of_mem_tail h))
        (fun h => hnl (List.mem_of_mem_tail h))
    unfold builtin_ls
    simp only [List.drop_succ_cons, List.drop_zero]
    rw [lsFlagLoop, if_pos hdash, hscan]
  · intro t rest hdash hnf hnr hnR hne
    have hscan : rmScanTok t.tail (false, false) = (false, false) :=
      rmScanTok_id _ _ _ (fun h => hnf (List.mem_of_mem_tail h))
        (fun h => hnr (List.mem_of_mem_tail h))
        (fun h => hnR (List.mem_of_mem_tail h))
    cases rest with
    | nil => exact absurd rfl hne
    | cons r0 rest2 =>
      unfold builtin_rm
      simp only [List.getElem?_cons_zero, List.getElem?_cons_succ,
        List.drop_succ_cons, List.drop_zero]
      rw [rmFlagLoop, if_pos hdash, hscan]

/-- Counterexample for C10 as stated: in `rm a -f` the token `-f` is not a
leading flag, so it IS treated (and named in the error) as a path operand —
a path operand beginning with `'-'` can be named after the first operand of
`rm`. -/
theorem C10_counterexample :
    builtin_rm ⟨[([strL "a"], .file 420 0)], []⟩
        [strL "rm", strL "a", strL "-f"] =
      (1, ⟨[], []⟩, [.rmCannotStat (strL "-f")]) := by
  decide

/-- Witness for C10: `ls -x d` behaves exactly like `ls d`. -/
theorem C10_flag_handling_witness :
    builtin_ls ⟨[([strL "d"], .dir 493 4096)], []⟩
        [strL "ls", strL "-x", strL "d"] =
      builtin_ls ⟨[([strL "d"], .dir 493 4096)], []⟩ [strL "ls", strL "d"] :=
  (C10_flag_handling ⟨[([strL "d"], .dir 493 4096)], []⟩).1 (strL "-x")
    [strL "d"] (by decide) (by decide) (by decide)


/-- Sequential composition of the `rm` path loop: the paths are processed in
command-line order, and a nonzero (aborting) result on a prefix stops
processing — the remaining paths are left untouched; a zero result carries
its world and output into the remaining paths. -/
theorem rmLoop_append (fuel : Nat) (frc rec : Bool) (ps1 : List (List Char)) :
    ∀ (w : World) (ps2 : List (List Char)),
    rmLoop fuel frc rec w (ps1 ++ ps2) =
      (if (rmLoop fuel frc rec w ps1).1 = 0 then
        ((rmLoop fuel frc rec (rmLoop fuel frc rec w ps1).2.1 ps2).1,
         (rmLoop fuel frc rec (rmLoop fuel frc rec w ps1).2.1 ps2).2.1,
         (rmLoop fuel frc rec w ps1).2.2 ++
           (rmLoop fuel frc rec (rmLoop fuel frc rec w ps1).2.1 ps2).2.2)
      else rmLoop fuel frc rec w ps1) := by
  induction ps1 with
  | nil => intro w ps2; simp [rmLoop]
  | cons p ps1 ih =>
    intro w ps2
    rw [List.cons_append, rmLoop, rmLoop]
    cases hstat : statW w p with
    | none =>
      cases frc with
      | false => simp
      | true => exact ih w ps2
    | some st =>
      by_cases hdir : st.isDir
      · simp only [hdir, if_true]
        cases rec with
        | false =>
          simp only [Bool.not_false, if_true]
          cases frc with
          | false => simp
          | true =>
            rw [ih w ps2]
            by_cases hS : (rmLoop fuel true false w ps1).1 = 0 <;>
              simp [hS]
        | true =>
          simp only [Bool.not_true, Bool.false_eq_true, if_false]
          by_cases hrr : (remove_directory_recursive fuel w p).1 ≠ 0
          · rw [if_pos hrr, if_pos hrr]
            cases frc with
            | false => simp
            | true => exact ih _ ps2
          · rw [if_neg hrr, if_neg hrr]
            exact ih _ ps2
      · simp only [hdir, Bool.false_eq_true, if_false]
        cases hun : unlinkW w p with
        | some w2 => exact ih w2 ps2
        | none =>
          cases frc with
          | false => simp
          | true => exact ih w ps2

/-- Under `-f` the path loop never reports a nonzero status: every per-path
failure is suppressed. -/
theorem rmLoop_force_zero (fuel : Nat) (rec : Bool) (ps : List (List Char)) :
    ∀ w, (rmLoop fuel true rec w ps).1 = 0 := by
  induction ps with
  | nil => intro w; rfl
  | cons p ps ih =>
    intro w
    rw [rmLoop]
    cases hstat : statW w p with
    | none => exact ih w
    | some st =>
      by_cases hdir : st.isDir
      · simp only [hdir, if_true]
        cases rec with
        | false =>
          simp only [Bool.not_false, if_true]
          exact ih w
        | true =>
          simp only [Bool.not_true, Bool.false_eq_true, if_false]
          by_cases hrr : (remove_directory_recursive fuel w p).1 ≠ 0
          · rw [if_pos hrr]
            exact ih _
          · rw [if_neg hrr]
            exact ih _
      · simp only [hdir, Bool.false_eq_true, if_false]
        cases unlinkW w p with
        | some w2 => exact ih w2
        | none => exact ih w

/-- C1: `rm` path processing.  Paths are handled in command-line order with
early abort (the append law: a nonzero prefix result stops processing,
leaving the remaining paths untouched; a zero result threads its world on).
Without `-f`, a path that cannot be stat'ed or removed prints an error and
returns 1 immediately, in each of the source's failure arms: a failing
`stat`; an existing non-directory whose `unlink` fails; a directory when
`-r` was not given; and a directory whose recursive removal fails (keeping
the partial deletions the remover made).  With `-f`, a failing stat is
skipped and processing continues with the next path, a forced invocation
always returns status 0, and in particular `rm -f missing` returns 0 with
no output and no world change. -/
theorem C1_rm_error_handling (fuel : Nat) (rec : Bool) (w : World) :
    (∀ ps1 ps2 frc, rmLoop fuel frc rec w (ps1 ++ ps2) =
      (if (rmLoop fuel frc rec w ps1).1 = 0 then
        ((rmLoop fuel frc rec (rmLoop fuel frc rec w ps1).2.1 ps2).1,
         (rmLoop fuel frc rec (rmLoop fuel frc rec w ps1).2.1 ps2).2.1,
         (rmLoop fuel frc rec w ps1).2.2 ++
           (rmLoop fuel frc rec (rmLoop fuel frc rec w ps1).2.1 ps2).2.2)
      else rmLoop fuel frc rec w ps1)) ∧
    (∀ p rest, statW w p = none →
      rmLoop fuel false rec w (p :: rest) = (1, w, [.rmCannotStat p])) ∧
    (∀ p rest st, statW w p = some st → st.isDir = false →
      unlinkW w p = none →
      rmLoop fuel false rec w (p :: rest) = (1, w, [.rmCannotRemoveFile p])) ∧
    (∀ p rest st, statW w p = some st → st.isDir = true →
      rmLoop fuel false false w (p :: rest) = (1, w, [.rmIsDir p])) ∧
    (∀ p rest st, statW w p = some st → st.isDir = true →
      (remove_directory_recursive fuel w p).1 ≠ 0 →
      rmLoop fuel false true w (p :: rest) =
        (1, (remove_directory_recursive fuel w p).2,
          [.rmCannotRemoveDir p])) ∧
    (∀ p rest, statW w p = none →
      rmLoop fuel true rec w (p :: rest) = rmLoop fuel true rec w rest) ∧
    (∀ ps, (rmLoop fuel true rec w ps).1 = 0) ∧
    (∀ m, m.head? ≠ some '-' → statW w m = none →
      builtin_rm w [strL "rm", strL "-f", m] = (0, w, [])) := by
  refine ⟨fun ps1 ps2 frc => rmLoop_append fuel frc rec ps1 w ps2, ?_, ?_, ?_,
    ?_, ?_, fun ps => rmLoop_force_zero fuel rec ps w, ?_⟩
  · intro p rest hstat
    rw [rmLoop, hstat]
    rfl
  · intro p rest st hstat hdir hun
    rw [rmLoop, hstat]
    simp only [hdir, Bool.false_eq_true, if_false]
    rw [hun]
  · intro p rest st hstat hdir
    rw [rmLoop, hstat]
    simp only [hdir, if_true]
    rfl
  · intro p rest st hstat hdir hfail
    rw [rmLoop, hstat]
    simp only [hdir, if_true, Bool.not_true, Bool.false_eq_true, if_false]
    rw [if_pos hfail]
  · intro p rest hstat
    rw [rmLoop, hstat]
    rfl
  · intro m hm hstat
    unfold builtin_rm
    simp only [List.getElem?_cons_succ, List.getElem?_cons_zero,
      List.drop_succ_cons, List.drop_zero]
    rw [rmFlagLoop, if_pos (by decide : (strL "-f").head? = some '-'),
      (by decide : rmScanTok (strL "-f").tail (false, false) = (true, false)),
      rmFlagLoop, if_neg hm]
    show rmLoop (rmFuel w) true false w [m] = (0, w, [])
    rw [rmLoop, hstat]
    rfl

/-- Witness for C1, exercising each failure arm concretely: `rm -f missing`
returns 0 with no output and no change; `rm ro/f` where `ro` is a read-only
(mode `0555`) directory aborts with "cannot remove file" and status 1;
`rm d` on a directory without `-r` aborts with the use-`-r` error;
`rm -r ro` aborts with "cannot remove directory" when the recursive
removal fails on the unwritable directory's content. -/
theorem C1_rm_error_handling_witness :
    (builtin_rm ⟨[([strL "a"], .file 420 0)], []⟩
        [strL "rm", strL "-f", strL "missing"] =
      (0, ⟨[([strL "a"], .file 420 0)], []⟩, [])) ∧
    (rmLoop 3 false false
        ⟨[([strL "ro"], .dir 365 4096),
          ([strL "ro", strL "f"], .file 420 0)], []⟩
        [strL "ro/f"] =
      (1, ⟨[([strL "ro"], .dir 365 4096),
            ([strL "ro", strL "f"], .file 420 0)], []⟩,
        [.rmCannotRemoveFile (strL "ro/f")])) ∧
    (rmLoop 2 false false ⟨[([strL "d"], .dir 493 4096)], []⟩ [strL "d"] =
      (1, ⟨[([strL "d"], .dir 493 4096)], []⟩, [.rmIsDir (strL "d")])) ∧
    (rmLoop 3 false true
        ⟨[([strL "ro"], .dir 365 4096),
          ([strL "ro", strL "f"], .file 420 0)], []⟩
        [strL "ro"] =
      (1,
        (remove_directory_recursive 3
          ⟨[([strL "ro"], .dir 365 4096),
            ([strL "ro", strL "f"], .file 420 0)], []⟩ (strL "ro")).2,
        [.rmCannotRemoveDir (strL "ro")])) :=
  ⟨(C1_rm_error_handling 2 false ⟨[([strL "a"], .file 420 0)], []⟩).2.2.2.2.2.2.2
    (strL "missing") (by decide) (by decide),
   (C1_rm_error_handling 3 false
      ⟨[([strL "ro"], .dir 365 4096),
        ([strL "ro", strL "f"], .file 420 0)], []⟩).2.2.1
    (strL "ro/f") [] ⟨false, 33188, 0⟩ (by decide) rfl (by decide),
   (C1_rm_error_handling 2 false
      ⟨[([strL "d"], .dir 493 4096)], []⟩).2.2.2.1
    (strL "d") [] ⟨true, 16877, 4096⟩ (by decide) rfl,
   (C1_rm_error_handling 3 false
      ⟨[([strL "ro"], .dir 365 4096),
        ([strL "ro", strL "f"], .file 420 0)], []⟩).2.2.2.2.1
    (strL "ro") [] ⟨true, 16749, 4096⟩ (by decide) rfl (by decide)⟩

/-- C9: `rm -f` without `-r` on an existing directory.  The
"cannot remove directory (use -r)" message is still emitted, processing
continues with the remaining paths, the loop's status is 0 regardless, and
concretely `rm -f d` on a directory `d` returns status 0 with the world
unchanged and exactly that message as output. -/
theorem C9_rm_force_directory_message (fuel : Nat) (w : World)
    (d : List Char) (rest : List (List Char)) (st : StatRec)
    (hstat : statW w d = some st) (hdir : st.isDir = true) :
    rmLoop fuel true false w (d :: rest) =
      ((rmLoop fuel true false w rest).1,
       (rmLoop fuel true false w rest).2.1,
       .rmIsDir d :: (rmLoop fuel true false w rest).2.2) ∧
    (rmLoop fuel true false w (d :: rest)).1 = 0 ∧
    (d.head? ≠ some '-' →
      builtin_rm w [strL "rm", strL "-f", d] = (0, w, [.rmIsDir d])) := by
  have h1 : rmLoop fuel true false w (d :: rest) =
      ((rmLoop fuel true false w rest).1,
       (rmLoop fuel true false w rest).2.1,
       .rmIsDir d :: (rmLoop fuel true false w rest).2.2) := by
    rw [rmLoop, hstat]
    simp only [hdir, if_true, Bool.not_false]
  refine ⟨h1, ?_, ?_⟩
  · rw [h1]
    exact rmLoop_force_zero fuel false rest w
  · intro hm
    unfold builtin_rm
    simp only [List.getElem?_cons_succ, List.getElem?_cons_zero,
      List.drop_succ_cons, List.drop_zero]
    rw [rmFlagLoop, if_pos (by decide : (strL "-f").head? = some '-'),
      (by decide : rmScanTok (strL "-f").tail (false, false) = (true, false)),
      rmFlagLoop, if_neg hm]
    show rmLoop (rmFuel w) true false w [d] = (0, w, [.rmIsDir d])
    rw [rmLoop, hstat]
    simp only [hdir, if_true, Bool.not_false]
    rfl

/-- Witness for C9: `rm -f d` on a directory `d` emits the use-r message,
returns 0, and removes nothing. -/
theorem C9_rm_force_directory_message_witness :
    builtin_rm ⟨[([strL "d"], .dir 493 4096)], []⟩
        [strL "rm", strL "-f", strL "d"] =
      (0, ⟨[([strL "d"], .dir 493 4096)], []⟩, [.rmIsDir (strL "d")]) :=
  (C9_rm_force_directory_message 2 ⟨[([strL "d"], .dir 493 4096)], []⟩
      (strL "d") [] ⟨true, 16877, 4096⟩ (by decide) rfl).2.2 (by decide)

/-! ## Facts about the flat filesystem, for the recursive remover (C5) -/

/-- Resolution only reads the working directory. -/
theorem resolveW_cwd_congr (w2 w : World) (p : List Char)
    (h : w2.cwd = w.cwd) : resolveW w2 p = resolveW w p := by
  unfold resolveW
  rw [h]

/-- Removed keys do not disturb lookups at other keys. -/
theorem find?_filter_ne (l : List (List FName × Info)) (comps q : List FName)
    (h : q ≠ comps) :
    (l.filter (fun e => !(e.1 == comps))).find? (fun e => e.1 == q) =
      l.find? (fun e => e.1 == q) := by
  induction l with
  | nil => rfl
  | cons e l ih =>
    by_cases hc : e.1 = comps
    · have hq : (e.1 == q) = false := by
        rw [hc]
        exact beq_eq_false_iff_ne.mpr (fun hh => h hh.symm)
      have hdrop : (!(e.1 == comps)) = false := by simp [hc]
      rw [List.filter_cons, if_neg (by simp [hdrop]), List.find?_cons,  hq]
      exact ih
    · have hkeep : (!(e.1 == comps)) = true := by simp [hc]
      rw [List.filter_cons, if_pos hkeep, List.find?_cons, List.find?_cons]
      cases hq : (e.1 == q)
      · exact ih
      · rfl

/-- `findEntry` after an erasure, away from the erased key. -/
theorem findEntry_erase_ne (w : World) (comps q : List FName) (h : q ≠ comps) :
    findEntry (eraseEntry w comps) q = findEntry w q := by
  unfold findEntry eraseEntry
  simp only
  rw [find?_filter_ne w.files comps q h]

/-- The erased key is gone. -/
theorem findEntry_erase_self (w : World) (comps : List FName) :
    findEntry (eraseEntry w comps) comps = none := by
  unfold findEntry eraseEntry
  simp only
  rw [List.find?_eq_none.mpr]
  intro e he
  have := (List.mem_filter.mp he).2
  simp only [Bool.not_eq_true'] at this
  simp [this]

/-- Directory-ness at other keys survives an erasure. -/
theorem isDirAt_erase_ne (w : World) (comps q : List FName) (h : q ≠ comps) :
    isDirAt (eraseEntry w comps) q = isDirAt w q := by
  unfold isDirAt
  rw [findEntry_erase_ne w comps q h]

/-- Membership in the child-name list characterised by entry paths. -/
theorem mem_childNames (w : World) (comps : List FName) (n : FName) :
    n ∈ childNames w comps ↔ ∃ i, (comps ++ [n], i) ∈ w.files := by
  unfold childNames
  rw [List.mem_filterMap]
  constructor
  · rintro ⟨e, he, hfe⟩
    cases hl : e.1.getLast? with
    | none => rw [hl] at hfe; cases hfe
    | some m =>
      rw [hl] at hfe
      by_cases hd : (e.1.dropLast == comps) = true
      · simp only [hd, if_true] at hfe
        cases hfe
        have hdc : e.1.dropLast = comps := by simpa using hd
        have hsplit : e.1.dropLast ++ [n] = e.1 :=
          List.dropLast_append_getLast? n hl
        rw [hdc] at hsplit
        exact ⟨e.2, by rw [hsplit]; exact he⟩
      · simp only [hd, Bool.false_eq_true, if_false] at hfe
        simp at hfe
  · rintro ⟨i, hmem⟩
    refine ⟨(comps ++ [n], i), hmem, ?_⟩
    simp only [List.getLast?_concat, List.dropLast_concat, beq_self_eq_true,
      if_true]


/-- Inversion of a successful `unlink`: the path resolved to an existing
file, and the world is that entry's erasure. -/
theorem unlinkW_inv (w w2 : World) (p : List Char) (h : unlinkW w p = some w2) :
    ∃ c cs, resolveW w p = some (c :: cs) ∧
      (∃ perm sz, findEntry w (c :: cs) = some (.file perm sz)) ∧
      w2 = eraseEntry w (c :: cs) := by
  unfold unlinkW at h
  split at h
  · next c cs hres =>
    split at h
    · next perm sz hfe =>
      by_cases hpw : parentWritable w (c :: cs) = true
      · rw [if_pos hpw] at h
        cases h
        exact ⟨c, cs, hres, ⟨perm, sz, hfe⟩, rfl⟩
      · rw [if_neg hpw] at h
        cases h
    · next => cases h
  · next => cases h

/-- Inversion of a successful `rmdir`: the path resolved to an existing
empty directory, and the world is that entry's erasure. -/
theorem rmdirW_inv (w w2 : World) (p : List Char) (h : rmdirW w p = some w2) :
    ∃ c cs, resolveW w p = some (c :: cs) ∧
      (∃ perm sz, findEntry w (c :: cs) = some (.dir perm sz)) ∧
      childNames w (c :: cs) = [] ∧
      w2 = eraseEntry w (c :: cs) := by
  unfold rmdirW at h
  split at h
  · next c cs hres =>
    split at h
    · next perm sz hfe =>
      by_cases hk : (childNames w (c :: cs)).isEmpty = true
      · rw [if_pos hk] at h
        cases h
        exact ⟨c, cs, hres, ⟨perm, sz, hfe⟩, by simpa using hk, rfl⟩
      · rw [if_neg hk] at h
        cases h
    · next => cases h
  · next => cases h

/-- `unlink` never moves the working directory. -/
theorem unlinkW_cwd (w w2 : World) (p : List Char)
    (h : unlinkW w p = some w2) : w2.cwd = w.cwd := by
  obtain ⟨c, cs, _, _, hw2⟩ := unlinkW_inv w w2 p h
  rw [hw2]
  rfl

/-- `rmdir` never moves the working directory. -/
theorem rmdirW_cwd (w w2 : World) (p : List Char)
    (h : rmdirW w p = some w2) : w2.cwd = w.cwd := by
  obtain ⟨c, cs, _, _, _, hw2⟩ := rmdirW_inv w w2 p h
  rw [hw2]
  rfl

/-- The entries loop of the remover never moves the working directory. -/
theorem removeEntries_cwd (recurse : World → List Char → Int × World)
    (hrec : ∀ w p, ((recurse w p).2).cwd = w.cwd) :
    ∀ (ns : List FName) (w : World) (path : List Char),
      ((removeEntries recurse w path ns).2).cwd = w.cwd := by
  intro ns
  induction ns with
  | nil => intro w path; rfl
  | cons nm ns ih =>
    intro w path
    rw [removeEntries]
    by_cases hdot : nm = ['.'] ∨ nm = ['.', '.']
    · rw [if_pos hdot]; exact ih w path
    · rw [if_neg hdot]
      cases hstat : statW w (buildFullPath path nm) with
      | none => rfl
      | some st =>
        by_cases hdir : st.isDir = true
        · simp only [hdir, if_true]
          by_cases hr : (recurse w (buildFullPath path nm)).1 ≠ 0
          · rw [if_pos hr]
            exact hrec w _
          · rw [if_neg hr]
            rw [ih _ path, hrec w _]
        · simp only [hdir, Bool.false_eq_true, if_false]
          cases hu : unlinkW w (buildFullPath path nm) with
          | some w2 => rw [ih w2 path, unlinkW_cwd w w2 _ hu]
          | none => rfl

/-- The recursive remover never moves the working directory. -/
theorem remove_directory_recursive_cwd :
    ∀ (fuel : Nat) (w : World) (p : List Char),
      ((remove_directory_recursive fuel w p).2).cwd = w.cwd := by
  intro fuel
  induction fuel with
  | zero => intro w p; rfl
  | succ f ih =>
    intro w p
    rw [remove_directory_recursive]
    split
    · rfl
    · next names heq =>
      split
      · next => exact removeEntries_cwd _ ih names w p
      · next =>
        split
        · next w3 hrm =>
          rw [rmdirW_cwd _ _ _ hrm, removeEntries_cwd _ ih names w p]
        · next => exact removeEntries_cwd _ ih names w p

/-- Erasing an entry that is no other entry's proper ancestor preserves
well-formedness. -/
theorem wf_erase (w : World) (comps : List FName) (hwf : Wf w)
    (hnotanc : ∀ e ∈ w.files, ∀ k, k < e.1.length → 0 < k →
      e.1.take k ≠ comps) :
    Wf (eraseEntry w comps) := by
  obtain ⟨hnd, hprops⟩ := hwf
  constructor
  · exact List.Nodup.sublist
      (List.Sublist.map _ (List.filter_sublist w.files)) hnd
  · intro e he
    have hel : e ∈ w.files := List.mem_of_mem_filter he
    obtain ⟨h1, h2, h3⟩ := hprops e hel
    refine ⟨h1, h2, ?_⟩
    intro k hk hk0
    rw [isDirAt_erase_ne w comps (e.1.take k) (hnotanc e hel k hk hk0)]
    exact h3 k hk hk0

/-- A successful `unlink` preserves well-formedness: the erased entry is a
file, and a file is never another entry's ancestor (those are directories). -/
theorem unlink_preserves_wf (w w2 : World) (p : List Char)
    (h : unlinkW w p = some w2) (hwf : Wf w) : Wf w2 := by
  obtain ⟨c, cs, hres, ⟨perm, sz, hfe⟩, hw2⟩ := unlinkW_inv w w2 p h
  subst hw2
  apply wf_erase w _ hwf
  intro e he k hk hk0 hcontra
  have h3 := (hwf.2 e he).2.2 k hk hk0
  rw [hcontra] at h3
  unfold isDirAt at h3
  rw [hfe] at h3
  simp at h3

/-- An empty directory has no descendants among the entries: any entry
strictly below it would give it a direct child. -/
theorem empty_dir_no_descendant (w : World) (comps : List FName)
    (hwf : Wf w) (hkids : childNames w comps = []) :
    ∀ e ∈ w.files, comps <+: e.1 → comps = e.1 := by
  intro e he hpre
  by_contra hne
  obtain ⟨t, ht⟩ := hpre
  cases t with
  | nil => exact hne (by rw [← ht, List.append_nil])
  | cons x t2 =>
    cases t2 with
    | nil =>
      -- e itself is a direct child of comps
      have : x ∈ childNames w comps :=
        (mem_childNames w comps x).mpr ⟨e.2, by rw [ht]; exact he⟩
      rw [hkids] at this
      cases this
    | cons y t3 =>
      -- the ancestor at depth |comps|+1 is a direct child of comps
      have hklt : comps.length + 1 < e.1.length := by
        rw [← ht]
        simp only [List.length_append, List.length_cons]
        omega
      have h3 := (hwf.2 e he).2.2 (comps.length + 1) hklt (by omega)
      have htake : e.1.take (comps.length + 1) = comps ++ [x] := by
        rw [← ht]
        rw [List.take_append_eq_append_take]
        simp [List.take_of_length_le]
      rw [htake] at h3
      unfold isDirAt at h3
      cases hfe : findEntry w (comps ++ [x]) with
      | none => rw [hfe] at h3; simp at h3
      | some info =>
        have hmem : ∃ i, (comps ++ [x], i) ∈ w.files := by
          unfold findEntry at hfe
          cases hfind : (w.files.find? (fun e => e.1 == comps ++ [x])) with
          | none => rw [hfind] at hfe; cases hfe
          | some e2 =>
            have he2 : e2 ∈ w.files := List.mem_of_find?_eq_some hfind
            have hkey := List.find?_some hfind
            simp only at hkey
            have hkey2 : e2.1 = comps ++ [x] := by simpa using hkey
            exact ⟨e2.2, by rw [← hkey2]; exact he2⟩
        have : x ∈ childNames w comps := (mem_childNames w comps x).mpr hmem
        rw [hkids] at this
        cases this

/-- A successful `rmdir` preserves well-formedness: the erased directory is
empty, so it is no entry's proper ancestor. -/
theorem rmdir_preserves_wf (w w2 : World) (p : List Char)
    (h : rmdirW w p = some w2) (hwf : Wf w) : Wf w2 := by
  obtain ⟨c, cs, hres, ⟨perm, sz, hfe⟩, hkids, hw2⟩ := rmdirW_inv w w2 p h
  subst hw2
  apply wf_erase w _ hwf
  intro e he k hk hk0 hcontra
  have hpre : (c :: cs) <+: e.1 := by
    rw [← hcontra]
    exact List.take_prefix k e.1
  have heq := empty_dir_no_descendant w (c :: cs) hwf hkids e he hpre
  have hlen := congrArg List.length hcontra
  rw [List.length_take] at hlen
  have hlen2 : (c :: cs).length = e.1.length := congrArg List.length heq
  omega

/-- The entries loop preserves well-formedness. -/
theorem removeEntries_wf (recurse : World → List Char → Int × World)
    (hrec : ∀ w p, Wf w → Wf ((recurse w p).2)) :
    ∀ (ns : List FName) (w : World) (path : List Char), Wf w →
      Wf ((removeEntries recurse w path ns).2) := by
  intro ns
  induction ns with
  | nil => intro w path hwf; exact hwf
  | cons nm ns ih =>
    intro w path hwf
    rw [removeEntries]
    by_cases hdot : nm = ['.'] ∨ nm = ['.', '.']
    · rw [if_pos hdot]; exact ih w path hwf
    · rw [if_neg hdot]
      cases hstat : statW w (buildFullPath path nm) with
      | none => exact hwf
      | some st =>
        by_cases hdir : st.isDir = true
        · simp only [hdir, if_true]
          by_cases hr : (recurse w (buildFullPath path nm)).1 ≠ 0
          · rw [if_pos hr]
            exact hrec w _ hwf
          · rw [if_neg hr]
            exact ih _ path (hrec w _ hwf)
        · simp only [hdir, Bool.false_eq_true, if_false]
          cases hu : unlinkW w (buildFullPath path nm) with
          | some w2 => exact ih w2 path (unlink_preserves_wf w w2 _ hu hwf)
          | none => exact hwf

/-- The recursive remover preserves well-formedness. -/
theorem remove_directory_recursive_wf :
    ∀ (fuel : Nat) (w : World) (p : List Char), Wf w →
      Wf ((remove_directory_recursive fuel w p).2) := by
  intro fuel
  induction fuel with
  | zero => intro w p hwf; exact hwf
  | succ f ih =>
    intro w p hwf
    rw [remove_directory_recursive]
    split
    · exact hwf
    · next names heq =>
      split
      · next => exact removeEntries_wf _ ih names w p hwf
      · next =>
        split
        · next w3 hrm =>
          exact rmdir_preserves_wf _ w3 p hrm
            (removeEntries_wf _ ih names w p hwf)
        · next => exact removeEntries_wf _ ih names w p hwf

/-- Evaluation of a successful remover run. -/
theorem remove_directory_recursive_eval (f : Nat) (w : World) (p : List Char)
    (names : List FName) (w3 : World)
    (heq : readdirW w p = some names)
    (hr : (removeEntries (remove_directory_recursive f) w p names).1 = 0)
    (hrm : rmdirW (removeEntries (remove_directory_recursive f) w p names).2
      p = some w3) :
    remove_directory_recursive (f + 1) w p = (0, w3) := by
  simp only [remove_directory_recursive, heq]
  rw [if_neg (fun hc => hc hr), hrm]

/-- Inversion of a successful remover run: the directory listed, every
entry was processed with status 0, and the final `rmdir` succeeded. -/
theorem remove_directory_recursive_succ_inv (f : Nat) (w : World)
    (p : List Char)
    (h0 : (remove_directory_recursive (f + 1) w p).1 = 0) :
    ∃ names, readdirW w p = some names ∧
      (removeEntries (remove_directory_recursive f) w p names).1 = 0 ∧
      ∃ w3,
        rmdirW (removeEntries (remove_directory_recursive f) w p names).2 p =
          some w3 ∧
        remove_directory_recursive (f + 1) w p = (0, w3) := by
  rw [remove_directory_recursive] at h0
  split at h0
  · simp at h0
  · next names heq =>
    split at h0
    · next hr => exact absurd h0 hr
    · next hr =>
      have hr0 :
          (removeEntries (remove_directory_recursive f) w p names).1 = 0 := by
        by_contra hc
        exact hr hc
      split at h0
      · next w3 hrm =>
        exact ⟨names, heq, hr0, w3, hrm,
          remove_directory_recursive_eval f w p names w3 heq hr0 hrm⟩
      · next hrm => simp at h0

/-- Success of the recursive remover removes the directory and everything
below it: in the resulting world the directory's path has no entry and no
entry lies at or below it. -/
theorem remove_directory_recursive_success (fuel : Nat) (w : World)
    (p : List Char) (hwf : Wf w)
    (h0 : (remove_directory_recursive fuel w p).1 = 0)
    (comps : List FName) (hres : resolveW w p = some comps) :
    findEntry (remove_directory_recursive fuel w p).2 comps = none ∧
    ∀ e ∈ (remove_directory_recursive fuel w p).2.files, ¬ comps <+: e.1 := by
  cases fuel with
  | zero => simp [remove_directory_recursive] at h0
  | succ f =>
    obtain ⟨names, heq, hr0, w3, hrm, heval⟩ :=
      remove_directory_recursive_succ_inv f w p h0
    rw [heval]
    have hwmid :
        Wf (removeEntries (remove_directory_recursive f) w p names).2 :=
      removeEntries_wf _ (remove_directory_recursive_wf f) names w p hwf
    have hcwd :
        ((removeEntries (remove_directory_recursive f) w p names).2).cwd =
          w.cwd :=
      removeEntries_cwd _ (remove_directory_recursive_cwd f) names w p
    obtain ⟨c, cs, hres2, ⟨perm, sz, hfe⟩, hkids, hw3⟩ :=
      rmdirW_inv _ w3 p hrm
    have hresmid :
        resolveW (removeEntries (remove_directory_recursive f) w p names).2
          p = some comps := by
      rw [resolveW_cwd_congr _ w p hcwd]
      exact hres
    rw [hresmid] at hres2
    injection hres2 with hcc
    subst hw3
    constructor
    · rw [hcc]
      exact findEntry_erase_self _ (c :: cs)
    · intro e he hpre
      have hmem := List.mem_filter.mp he
      have hne : e.1 ≠ c :: cs := by
        have h2 := hmem.2
        simp only [Bool.not_eq_true'] at h2
        simpa using h2
      rw [hcc] at hpre
      exact hne (empty_dir_no_descendant _ (c :: cs) hwmid hkids e hmem.1
        hpre).symm

/-- Sequential composition of the entries loop: entries are processed in
listing order; the first failing entry aborts the whole loop with `-1`,
keeping the deletions already made (no rollback) and leaving the remaining
entries untouched; a clean prefix threads its world into the rest. -/
theorem removeEntries_append (recurse : World → List Char → Int × World)
    (ns1 : List FName) :
    ∀ (w : World) (path : List Char) (ns2 : List FName),
    removeEntries recurse w path (ns1 ++ ns2) =
      (if (removeEntries recurse w path ns1).1 = 0 then
        removeEntries recurse (removeEntries recurse w path ns1).2 path ns2
      else removeEntries recurse w path ns1) := by
  induction ns1 with
  | nil => intro w path ns2; simp [removeEntries]
  | cons nm ns1 ih =>
    intro w path ns2
    rw [List.cons_append, removeEntries, removeEntries]
    by_cases hdot : nm = ['.'] ∨ nm = ['.', '.']
    · rw [if_pos hdot, if_pos hdot]
      exact ih w path ns2
    · rw [if_neg hdot, if_neg hdot]
      cases hstat : statW w (buildFullPath path nm) with
      | none => simp
      | some st =>
        by_cases hdir : st.isDir = true
        · simp only [hdir, if_true]
          by_cases hr : (recurse w (buildFullPath path nm)).1 ≠ 0
          · rw [if_pos hr, if_pos hr]
            simp
          · rw [if_neg hr, if_neg hr]
            exact ih _ path ns2
        · simp only [hdir, Bool.false_eq_true, if_false]
          cases hu : unlinkW w (buildFullPath path nm) with
          | some w2 => exact ih w2 path ns2
          | none => simp

/-- Within the 1023-byte buffer bound, the child-path join is a plain
`'/'`-join, with the separator omitted when the parent already ends in
`'/'`. -/
theorem buildFullPath_join (path nm : List Char) (_hne : path ≠ [])
    (hlen : path.length + 1 + nm.length ≤ 1023) :
    buildFullPath path nm =
      if path.getLast? = some '/' then path ++ nm
      else path ++ '/' :: nm := by
  have h1 : path.take 1023 = path := List.take_of_length_le (by omega)
  simp only [buildFullPath, h1]
  by_cases hsl : path.getLast? = some '/'
  · rw [if_pos hsl,
      if_neg (show ¬(path.length < 1023 ∧ path.getLast? ≠ some '/') from
        fun hcon => hcon.2 hsl),
      List.take_of_length_le (by omega)]
  · rw [if_neg hsl,
      if_pos (show path.length < 1023 ∧ path.getLast? ≠ some '/' from
        ⟨by omega, hsl⟩),
      List.length_append,
      List.take_of_length_le
        (by simp only [List.length_cons, List.length_nil]; omega),
      List.append_assoc]
    rfl

/-- C5: the recursive remover.  Its `readdir` loop skips the self and
parent references; each remaining child path is formed by a `'/'`-join that
omits the separator when the parent path already ends in one (within the
1023-byte buffer); entries are processed in listing order and the first
child that cannot be stat'ed, recursed into, or unlinked aborts the whole
call with `-1`, keeping the deletions already made (no rollback) and
touching no later entry; and when the call reports success, the directory's
path and everything at or below it is gone from the resulting world. -/
theorem C5_remove_directory_recursive (fuel : Nat) (w : World)
    (p : List Char) (hwf : Wf w) :
    ((remove_directory_recursive fuel w p).1 = 0 →
      ∀ comps, resolveW w p = some comps →
        findEntry (remove_directory_recursive fuel w p).2 comps = none ∧
        ∀ e ∈ (remove_directory_recursive fuel w p).2.files,
          ¬ comps <+: e.1) ∧
    (∀ (recurse : World → List Char → Int × World) (w2 : World)
        (path : List Char) (ns1 ns2 : List FName),
      removeEntries recurse w2 path (ns1 ++ ns2) =
        (if (removeEntries recurse w2 path ns1).1 = 0 then
          removeEntries recurse (removeEntries recurse w2 path ns1).2 path ns2
        else removeEntries recurse w2 path ns1)) ∧
    (∀ (recurse : World → List Char → Int × World) (w2 : World)
        (path : List Char) (nm : FName) (ns : List FName),
      nm = ['.'] ∨ nm = ['.', '.'] →
      removeEntries recurse w2 path (nm :: ns) =
        removeEntries recurse w2 path ns) ∧
    (∀ path2 nm : List Char, path2 ≠ [] →
      path2.length + 1 + nm.length ≤ 1023 →
      buildFullPath path2 nm =
        if path2.getLast? = some '/' then path2 ++ nm
        else path2 ++ '/' :: nm) := by
  refine ⟨?_, ?_, ?_, fun path2 nm h1 h2 => buildFullPath_join path2 nm h1 h2⟩
  · intro h0 comps hres
    exact remove_directory_recursive_success fuel w p hwf h0 comps hres
  · intro recurse w2 path ns1 ns2
    exact removeEntries_append recurse ns1 w2 path ns2
  · intro recurse w2 path nm ns hdot
    rw [removeEntries, if_pos hdot]

/-- Witness for C5 on the spec's test tree `d/a`, `d/sub/b`: `rm -r d`
succeeds and leaves nothing at or below `d`. -/
theorem C5_remove_directory_recursive_witness :
    Wf ⟨[([strL "d"], .dir 493 4096),
        ([strL "d", strL "a"], .file 420 0),
        ([strL "d", strL "sub"], .dir 493 4096),
        ([strL "d", strL "sub", strL "b"], .file 420 0)], []⟩ ∧
    (remove_directory_recursive 5
      ⟨[([strL "d"], .dir 493 4096),
        ([strL "d", strL "a"], .file 420 0),
        ([strL "d", strL "sub"], .dir 493 4096),
        ([strL "d", strL "sub", strL "b"], .file 420 0)], []⟩
      (strL "d")).1 = 0 ∧
    findEntry (remove_directory_recursive 5
      ⟨[([strL "d"], .dir 493 4096),
        ([strL "d", strL "a"], .file 420 0),
        ([strL "d", strL "sub"], .dir 493 4096),
        ([strL "d", strL "sub", strL "b"], .file 420 0)], []⟩
      (strL "d")).2 [strL "d"] = none :=
  ⟨by decide, by decide,
    ((C5_remove_directory_recursive 5
      ⟨[([strL "d"], .dir 493 4096),
        ([strL "d", strL "a"], .file 420 0),
        ([strL "d", strL "sub"], .dir 493 4096),
        ([strL "d", strL "sub", strL "b"], .file 420 0)], []⟩
      (strL "d") (by decide)).1 (by decide) [strL "d"] (by decide)).1⟩
